import Mathlib

set_option maxRecDepth 40000

/-!
Verification development for the persistence and aggregation layer of the
command-test tracking suite (`scripts/test_persistence.py`).

The Python module is shallowly embedded: the SQLite tables become lists of
records, wall-clock timestamps become `Nat` parameters (the ISO timestamp
format written by `CURRENT_TIMESTAMP` is strictly monotone in time, so the
`Nat` order models both the SQL `MAX`/`ORDER BY` comparisons and mtime
comparisons), file contents become `String`s, and every operation that in
Python opens a connection, works and commits becomes a pure function from
state to state.  Raised exceptions are modelled with `Except`.
-/

/-! ## JSON values and serialization

Models Python `json` values as consumed and produced by the module.  An
object is an association list, keeping construction order, exactly like a
Python `dict`; `json.dumps(..., sort_keys=True)` is modelled by sorting the
rendered pairs by key before joining.  String escaping is not modelled
(no string handled by the claims contains a quote or backslash).
-/

inductive JsonVal where
  | null : JsonVal
  | bool (b : Bool) : JsonVal
  | num (n : Int) : JsonVal
  | str (s : String) : JsonVal
  | arr (xs : List JsonVal) : JsonVal
  | obj (kvs : List (String × JsonVal)) : JsonVal
deriving Repr

/-- Lexicographic strict comparison of character lists by code point (the
order Python string comparison and SQLite text memcmp use). -/
def charListLt : List Char → List Char → Bool
  | [], [] => false
  | [], _ :: _ => true
  | _ :: _, [] => false
  | x :: xs, y :: ys =>
      if x.toNat < y.toNat then true
      else if y.toNat < x.toNat then false
      else charListLt xs ys

/-- Lexicographic non-strict comparison of character lists by code point. -/
def charListLe : List Char → List Char → Bool
  | [], _ => true
  | _ :: _, [] => false
  | x :: xs, y :: ys =>
      if x.toNat < y.toNat then true
      else if y.toNat < x.toNat then false
      else charListLe xs ys

/-- String comparison, non-strict. -/
def strLeB (a b : String) : Bool := charListLe a.data b.data

/-- String comparison, strict. -/
def strLtB (a b : String) : Bool := charListLt a.data b.data

/-- Key-ordering relation used by `sort_keys=True`: compare rendered pairs
by their key string. -/
def keyLe (a b : String × String) : Prop := strLeB a.1 b.1 = true

instance : DecidableRel keyLe := fun a b =>
  inferInstanceAs (Decidable (strLeB a.1 b.1 = true))

/-- Comma-join as Python `json.dumps` does with its default separators. -/
def commaJoin (xs : List String) : String := String.intercalate ", " xs

/-- Quote a string (escaping not modelled, see module comment). -/
def quoteJ (s : String) : String := "\"" ++ s ++ "\""

mutual

/-- Models `json.dumps(v, sort_keys=sk)`. -/
def dumpsVal (sk : Bool) : JsonVal → String
  | .null => "null"
  | .bool b => if b then "true" else "false"
  | .num n => toString n
  | .str s => quoteJ s
  | .arr xs => "[" ++ commaJoin (dumpsList sk xs) ++ "]"
  | .obj kvs =>
      let rendered := dumpsPairs sk kvs
      let ordered := if sk then List.insertionSort keyLe rendered else rendered
      "\x7b" ++ commaJoin (ordered.map (fun p => quoteJ p.1 ++ ": " ++ p.2)) ++ "\x7d"

/-- Renders each array element. -/
def dumpsList (sk : Bool) : List JsonVal → List String
  | [] => []
  | x :: xs => dumpsVal sk x :: dumpsList sk xs

/-- Renders each object binding, keeping the key for later ordering. -/
def dumpsPairs (sk : Bool) : List (String × JsonVal) → List (String × String)
  | [] => []
  | (k, v) :: xs => (k, dumpsVal sk v) :: dumpsPairs sk xs

end

/-- Models `hashlib.sha256(...).hexdigest()` as a concrete deterministic
content digest (a 64-bit polynomial hash of the byte string).  All that the
code relies on is that the digest is a function of the serialized bytes; the
counterexamples additionally exhibit digest inputs that differ, where the
real SHA-256 digests differ as well. -/
def sha256digest (s : String) : Nat :=
  s.data.foldl (fun h c => (h * 131 + c.toNat) % (2 ^ 64)) 7

/-! ## Data model

The four SQLite tables of `_init_database` (test_persistence.py lines
35-98).  `result_id`/`snapshot_id` AUTOINCREMENT keys are the list
position / length-based counters.  `tested_at`, `started_at`, `mtime`
timestamps are `Nat`s (see module comment).
-/

/-- Row of the `test_sessions` table. -/
structure SessionRow where
  session_id : String
  started_at : Nat
  ended_at : Option Nat
  user_id : String
  guild_id : String
  channel_id : String
deriving DecidableEq, Repr

/-- Row of the `test_results` table.  `record_test` never writes NULL into
`command`, `subcommand`, `status`, `error_output` or `execution_time_ms`,
so those are plain values; `notes` can be NULL (a migrated `null`). -/
structure TestResultRow where
  session_id : String
  command : String
  subcommand : String
  status : String
  tested_at : Nat
  notes : Option String
  error_output : String
  execution_time_ms : Int
  metadata : String
deriving DecidableEq, Repr

/-- Row of the `command_registry` table, primary key (command, subcommand). -/
structure RegistryEntry where
  command : String
  subcommand : String
  description : String
  aliases : List String
  discovered_at : Nat
  last_modified : Nat
  is_active : Bool
deriving DecidableEq, Repr

/-- Row of the `test_snapshots` table. -/
structure SnapshotRow where
  snapshot_id : Nat
  created_at : Nat
  snapshot_data : String
  checksum : Nat
  description : String
deriving DecidableEq, Repr

/-- The whole store (the `test_data.db` file's contents). -/
structure DBState where
  sessions : List SessionRow
  results : List TestResultRow
  registry : List RegistryEntry
  snapshots : List SnapshotRow
deriving DecidableEq, Repr

/-- The empty store, as created by `_init_database` on a fresh file. -/
def DBState.empty : DBState := ⟨[], [], [], []⟩

/-! ## CommandRegistryDocument

The discovered-commands document (`discovered_commands.json`), as consumed
by `update_command_registry` and `_integrate_with_discovered_commands`.
A missing key `description` and an empty-string `description` behave the
same in both consumers (`.get('description','')` and truthiness), so the
field is a plain `String` with `""` for absent. -/

/-- Declared subcommand metadata. -/
structure SubInfo where
  description : String
  aliases : List String
deriving DecidableEq, Repr

/-- Declared command metadata. -/
structure CmdInfo where
  description : String
  aliases : List String
  subcommands : List (String × SubInfo)
deriving DecidableEq, Repr

/-- A registry document: a JSON object mapping command name to metadata. -/
abbrev RegistryDoc := List (String × CmdInfo)

/-! ## Session and result recorder (lines 155-238) -/

/-- Models the digest-based id of `start_session` (its value is opaque to
every claim; determinism in the inputs is all that matters). -/
def mkSessionId (user_id guild_id channel_id : String) (now : Nat) : String :=
  "sid:" ++ user_id ++ ":" ++ guild_id ++ ":" ++ channel_id ++ ":" ++ toString now

/-- Models `start_session` (lines 155-172): inserts a session row with
`started_at` defaulted to the current time, returns the id. -/
def start_session (user_id guild_id channel_id : String) (now : Nat) (db : DBState) :
    DBState × String :=
  let sid := mkSessionId user_id guild_id channel_id now
  ({ db with sessions := db.sessions ++
      [{ session_id := sid, started_at := now, ended_at := none,
         user_id := user_id, guild_id := guild_id, channel_id := channel_id }] },
   sid)

/-- Models `end_session` (lines 174-186): sets `ended_at` on the matching
row; a no-op when the id is unknown. -/
def end_session (session_id : String) (now : Nat) (db : DBState) : DBState :=
  { db with sessions := db.sessions.map (fun s =>
      if s.session_id = session_id then { s with ended_at := some now } else s) }

/-- Normalization `subcommand or ""` applied by `record_test` and
`get_test_status`: Python `None` and `""` both collapse to `""`. -/
def normSub (sub : Option String) : String :=
  match sub with
  | none => ""
  | some s => s

/-- Models `record_test` (lines 188-205): inserts one immutable
`test_results` row; `tested_at` takes the insert-time default, `metadata`
is stored as its JSON dump (`json.dumps(metadata or {})`). -/
def record_test (session_id command : String) (subcommand : Option String)
    (status : String) (notes : Option String) (error_output : String)
    (execution_time_ms : Int) (metadata : Option (List (String × JsonVal)))
    (now : Nat) (db : DBState) : DBState :=
  { db with results := db.results ++
      [{ session_id := session_id, command := command,
         subcommand := normSub subcommand, status := status, tested_at := now,
         notes := notes, error_output := error_output,
         execution_time_ms := execution_time_ms,
         metadata := dumpsVal false (.obj (metadata.getD [])) }] }

/-! ## Command registry reconciliation (lines 207-238)

SQLite `INSERT OR REPLACE` on the primary key (command, subcommand) deletes
any existing row and inserts a whole new one; the columns absent from the
column list (`discovered_at`, `is_active`) therefore take their defaults
again: `discovered_at = CURRENT_TIMESTAMP` (the time of this statement, not
the original discovery time) and `is_active = 1`. -/

/-- Key test for a registry row. -/
def regKeyIs (e : RegistryEntry) (c s : String) : Bool :=
  e.command == c && e.subcommand == s

/-- Replace-or-append a registry row (the INSERT OR REPLACE upsert). -/
def upsertReg (reg : List RegistryEntry) (e : RegistryEntry) : List RegistryEntry :=
  reg.filter (fun x => !(regKeyIs x e.command e.subcommand)) ++ [e]

/-- The row written for a main command (subcommand sentinel `''`). -/
def baseEntry (c : String) (info : CmdInfo) (now : Nat) : RegistryEntry :=
  { command := c, subcommand := "", description := info.description,
    aliases := info.aliases, discovered_at := now, last_modified := now,
    is_active := true }

/-- The row written for a declared subcommand. -/
def subEntry (c sn : String) (sd : SubInfo) (now : Nat) : RegistryEntry :=
  { command := c, subcommand := sn, description := sd.description,
    aliases := sd.aliases, discovered_at := now, last_modified := now,
    is_active := true }

/-- Upserts for one command and all its declared subcommands. -/
def applyCmd (now : Nat) (reg : List RegistryEntry) (c : String) (info : CmdInfo) :
    List RegistryEntry :=
  info.subcommands.foldl (fun rg p => upsertReg rg (subEntry c p.1 p.2 now))
    (upsertReg reg (baseEntry c info now))

/-- Models `update_command_registry` (lines 207-238). -/
def update_command_registry (doc : RegistryDoc) (now : Nat) (db : DBState) : DBState :=
  { db with registry := doc.foldl (fun rg p => applyCmd now rg p.1 p.2) db.registry }

/-- Primary-key lookup in the registry table (used by the LEFT JOIN of
`get_all_test_results` and to state the claims). -/
def regLookup (reg : List RegistryEntry) (c s : String) : Option RegistryEntry :=
  reg.find? (fun e => regKeyIs e c s)

/-! ## Latest-status query (lines 240-264) -/

/-- Result of `get_test_status`: either the projected columns of a found
row, or the default untested dictionary. -/
inductive StatusResult where
  | found (status : String) (last_tested : Nat) (notes : Option String)
          (error_output : String) (execution_time_ms : Int) : StatusResult
  | untested : StatusResult
deriving DecidableEq, Repr

/-- Rows of a (command, subcommand) group, `subcommand` already normalized. -/
def filterPair (rs : List TestResultRow) (c s : String) : List TestResultRow :=
  rs.filter (fun r => r.command == c && r.subcommand == s)

/-- Models `ORDER BY tested_at DESC LIMIT 1`: one row of maximal
`tested_at` (the tie winner is unspecified in SQL; this model keeps the
earliest-inserted maximal row). -/
def pickLatest : List TestResultRow → Option TestResultRow
  | [] => none
  | r :: rs =>
      match pickLatest rs with
      | none => some r
      | some m => if m.tested_at > r.tested_at then some m else some r

/-- Models `get_test_status` (lines 240-264). -/
def get_test_status (db : DBState) (command : String) (subcommand : Option String) :
    StatusResult :=
  match pickLatest (filterPair db.results command (normSub subcommand)) with
  | some r => .found r.status r.tested_at r.notes r.error_output r.execution_time_ms
  | none => .untested

/-! ## Aggregation and reconciliation (lines 266-350)

The dedup filter of `get_all_test_results` is
`WHERE r.tested_at IN (SELECT MAX(tested_at) FROM test_results GROUP BY
command, subcommand)`: a row passes when its `tested_at` equals the maximum
of ANY group, not necessarily the maximum of its own group. -/

/-- Merged record produced by `get_all_test_results`.  Database-derived
records carry `some` in `subcommand`/`error_output`/`execution_time_ms`;
synthesized untested records carry Python `None` there (base command) and
the `'Never'` sentinel in `tested_at`, which the row type cannot even
represent, so synthesized records are never persistable. -/
structure ResultRecord where
  command : String
  subcommand : Option String
  status : String
  tested_at : Option Nat
  notes : Option String
  description : Option String
  aliases : Option (List String)
  error_output : Option String
  execution_time_ms : Option Int
deriving DecidableEq, Repr

/-- Display of `tested_at`: `none` is the `'Never'` sentinel string. -/
def testedAtText : Option Nat → String
  | none => "Never"
  | some t => toString t

/-- Maximum `tested_at` of a list of rows (`SELECT MAX(tested_at)`). -/
def maxTs : List TestResultRow → Option Nat
  | [] => none
  | r :: rs =>
      match maxTs rs with
      | none => some r.tested_at
      | some m => some (max r.tested_at m)

/-- Does `t` equal the per-group maximum of some (command, subcommand)
group, i.e. is `t` in the result set of the GROUP BY subquery? -/
def isGroupMax (rs : List TestResultRow) (t : Nat) : Bool :=
  rs.any (fun r => maxTs (filterPair rs r.command r.subcommand) == some t)

/-- Rows surviving the `WHERE tested_at IN (...)` filter. -/
def latestRows (db : DBState) : List TestResultRow :=
  db.results.filter (fun r => isGroupMax db.results r.tested_at)

/-- LEFT JOIN of a surviving row with its registry entry. -/
def rowRecord (db : DBState) (r : TestResultRow) : ResultRecord :=
  { command := r.command, subcommand := some r.subcommand, status := r.status,
    tested_at := some r.tested_at, notes := r.notes,
    description := (regLookup db.registry r.command r.subcommand).map (fun e => e.description),
    aliases := (regLookup db.registry r.command r.subcommand).map (fun e => e.aliases),
    error_output := some r.error_output,
    execution_time_ms := some r.execution_time_ms }

/-- The `ORDER BY r.command, r.subcommand` ordering on merged records
(`subcommand` is always `some` on the rows being ordered). -/
def recOrd (a b : ResultRecord) : Prop :=
  (strLtB a.command b.command ||
    (a.command == b.command && strLeB (normSub a.subcommand) (normSub b.subcommand))) = true

instance : DecidableRel recOrd := fun a b =>
  inferInstanceAs (Decidable ((strLtB a.command b.command ||
    (a.command == b.command &&
      strLeB (normSub a.subcommand) (normSub b.subcommand))) = true))

/-- The SQL part of `get_all_test_results` (lines 272-290). -/
def sqlLatest (db : DBState) : List ResultRecord :=
  List.insertionSort recOrd ((latestRows db).map (rowRecord db))

/-- Normalization applied when collecting `existing_pairs`
(line 317: `subcommand or None`): the empty string becomes Python `None`. -/
def pairOrNone (sub : Option String) : Option String :=
  match sub with
  | none => none
  | some s => if s = "" then none else some s

/-- The (command, subcommand-or-None) pair of an already-built record. -/
def recPair (r : ResultRecord) : String × Option String :=
  (r.command, pairOrNone r.subcommand)

/-- Synthesized untested record for a declared base command (lines 322-333). -/
def synthBase (c : String) (info : CmdInfo) : ResultRecord :=
  { command := c, subcommand := none, status := "untested", tested_at := none,
    notes := some "", description := some info.description,
    aliases := some info.aliases, error_output := none,
    execution_time_ms := none }

/-- Synthesized untested record for a declared subcommand (lines 336-348).
Note the declared name `sn` is used verbatim, not normalized. -/
def synthSub (c sn : String) (sd : SubInfo) : ResultRecord :=
  { command := c, subcommand := some sn, status := "untested", tested_at := none,
    notes := some "", description := some sd.description,
    aliases := some sd.aliases, error_output := none,
    execution_time_ms := none }

/-- Records synthesized for one declared command against the already-built
result set (the body of the loop at lines 320-348): the base record when
the base pair is absent and the description truthy, then one record per
declared subcommand whose raw name is absent from the pair set. -/
def synthBlock (existing : List ResultRecord) (p : String × CmdInfo) :
    List ResultRecord :=
  (if !((existing.map recPair).contains (p.1, (none : Option String))) &&
      p.2.description != ""
   then [synthBase p.1 p.2] else []) ++
  p.2.subcommands.filterMap (fun q =>
    if !((existing.map recPair).contains (p.1, some q.1))
    then some (synthSub p.1 q.1 q.2) else none)

/-- Models `_integrate_with_discovered_commands` (lines 299-350).  The
document argument is `none` when `discovered_commands.json` is missing or
malformed (lines 303-310). -/
def integrateDiscovered (docOpt : Option RegistryDoc) (existing : List ResultRecord) :
    List ResultRecord :=
  match docOpt with
  | none => existing
  | some doc => existing ++ doc.flatMap (synthBlock existing)

/-- Models `get_all_test_results` (lines 266-297): the deduplicating SQL
query followed by reconciliation against the live registry document. -/
def get_all_test_results (db : DBState) (docOpt : Option RegistryDoc) :
    List ResultRecord :=
  integrateDiscovered docOpt (sqlLatest db)

/-! ## Statistics (lines 352-401) -/

/-- Summary returned by `get_statistics`.  SQL `AVG` (a float) is modelled
exactly as the (sum, count) pair it is computed from, with `none` for the
NULL average of an empty table (then `or 0` yields 0 in the export). -/
structure Stats where
  total_commands : Nat
  total_sessions : Nat
  total_tests : Nat
  avg_execution_time_ms : Option (Int × Nat)
  status_distribution : List (String × Nat)
  tests_last_24h : Nat
deriving DecidableEq, Repr

/-- Models `get_statistics` (lines 352-401).  `total_commands` counts
distinct `command || ':' || subcommand` strings; the status distribution is
computed over the same (buggy) latest-per-pair filter as
`get_all_test_results`; `tests_last_24h` compares against `now` minus one
day (86400 seconds). -/
def get_statistics (db : DBState) (now : Nat) : Stats :=
  let latest := latestRows db
  { total_commands := ((db.results.map (fun r => r.command ++ ":" ++ r.subcommand)).eraseDups).length,
    total_sessions := ((db.results.map (fun r => r.session_id)).eraseDups).length,
    total_tests := db.results.length,
    avg_execution_time_ms :=
      if db.results.isEmpty then none
      else some ((db.results.map (fun r => r.execution_time_ms)).sum, db.results.length),
    status_distribution :=
      ((latest.map (fun r => r.status)).eraseDups).map
        (fun st => (st, latest.countP (fun r => r.status == st))),
    tests_last_24h := db.results.countP (fun r => decide (now - 86400 < r.tested_at)) }

/-! ## Snapshot service (lines 403-433) -/

/-- JSON encoding of one merged record, with the keys the Python dicts
carry (`aliases` is uniformly encoded as a list; the registry stores it as
a JSON array in both representations). -/
def encodeRecord (r : ResultRecord) : JsonVal :=
  .obj [("command", .str r.command),
        ("subcommand", match r.subcommand with | none => .null | some s => .str s),
        ("status", .str r.status),
        ("tested_at", .str (testedAtText r.tested_at)),
        ("notes", match r.notes with | none => .null | some s => .str s),
        ("description", match r.description with | none => .null | some s => .str s),
        ("aliases", match r.aliases with | none => .null | some xs => .arr (xs.map .str)),
        ("error_output", match r.error_output with | none => .null | some s => .str s),
        ("execution_time_ms", match r.execution_time_ms with | none => .null | some n => .num n)]

/-- JSON encoding of the statistics dictionary. -/
def encodeStats (st : Stats) : JsonVal :=
  .obj [("total_commands", .num st.total_commands),
        ("total_sessions", .num st.total_sessions),
        ("total_tests", .num st.total_tests),
        ("avg_execution_time_ms",
          match st.avg_execution_time_ms with
          | none => .num 0
          | some p => .arr [.num p.1, .num p.2]),
        ("status_distribution", .obj (st.status_distribution.map (fun p => (p.1, JsonVal.num p.2)))),
        ("tests_last_24h", .num st.tests_last_24h)]

/-- The `snapshot_data` dictionary of `create_snapshot` (lines 412-416):
note that it embeds the wall-clock capture timestamp. -/
def snapshotJson (db : DBState) (docOpt : Option RegistryDoc) (now : Nat) : JsonVal :=
  .obj [("timestamp", .str (toString now)),
        ("results", .arr ((get_all_test_results db docOpt).map encodeRecord)),
        ("statistics", encodeStats (get_statistics db now))]

/-- Checksum of a snapshot payload: digest of the key-sorted serialization
(line 419-421). -/
def snapshotChecksum (j : JsonVal) : Nat := sha256digest (dumpsVal true j)

/-- Models `create_snapshot` (lines 403-433): captures results and
statistics, checksums the sorted serialization, appends an immutable
snapshot row, returns (new state, new row id, checksum). -/
def create_snapshot (db : DBState) (docOpt : Option RegistryDoc) (now : Nat)
    (description : String) : DBState × Nat × Nat :=
  let data := snapshotJson db docOpt now
  let checksum := snapshotChecksum data
  let sid := db.snapshots.length + 1
  ({ db with snapshots := db.snapshots ++
      [{ snapshot_id := sid, created_at := now,
         snapshot_data := dumpsVal false data, checksum := checksum,
         description := description }] },
   sid, checksum)

/-! ## Backup manager (lines 100-153)

The file system around the store: the live database file, the backups
directory (a set of `*.db.gz` files with modification times), and any other
paths a restore may point at.  `gzip` round-trips exactly, so a backup's
bytes are modelled as the uncompressed database content it decompresses to.
The enumeration order of `Path.glob` is unspecified, so after a cleanup the
directory is represented in mtime-sorted order (observationally equal).
-/

/-- One `*.db.gz` file in the backups directory. -/
structure BackupEntry where
  name : String
  mtime : Nat
  content : String
deriving DecidableEq, Repr

/-- The file system state the backup manager works on. -/
structure FsState where
  db : String
  backups : List BackupEntry
  others : List (String × String)
deriving DecidableEq, Repr

/-- Backup file name `test_data_{type}_{timestamp}.db.gz` (line 119);
`strftime("%Y%m%d_%H%M%S")` is an injective, second-granular rendering of
the clock, modelled by `toString`. -/
def mkBackupName (backup_type : String) (now : Nat) : String :=
  "test_data_" ++ backup_type ++ "_" ++ toString now ++ ".db.gz"

/-- Ordering of backups by modification time (the `key=lambda p:
p.stat().st_mtime` sort of `_cleanup_old_backups`). -/
def bkLe (a b : BackupEntry) : Prop := a.mtime ≤ b.mtime

instance : DecidableRel bkLe := fun a b =>
  inferInstanceAs (Decidable (a.mtime ≤ b.mtime))

/-- Models `_cleanup_old_backups` (lines 132-137): sort by mtime and unlink
all but the `keep` most recent. -/
def cleanupOldBackups (keep : Nat) (fs : FsState) : FsState :=
  let sorted := List.insertionSort bkLe fs.backups
  if sorted.length > keep then
    { fs with backups := sorted.drop (sorted.length - keep) }
  else fs

/-- Write step of `create_backup` (lines 122-125): create (or truncate) the
gzip of the current store under the timestamped name. -/
def backupWrite (backup_type : String) (now : Nat) (fs : FsState) : FsState :=
  let name := mkBackupName backup_type now
  { fs with backups := fs.backups.filter (fun b => b.name != name) ++
      [{ name := name, mtime := now, content := fs.db }] }

/-- Models `create_backup` (lines 116-130): write the compressed copy, then
prune to the 10 most recent. -/
def create_backup (backup_type : String) (now : Nat) (fs : FsState) : FsState :=
  cleanupOldBackups 10 (backupWrite backup_type now fs)

/-- A path handed to `restore_backup`: either a file of the backups
directory or a path elsewhere on disk. -/
inductive RPath where
  | inBackups (name : String) : RPath
  | outside (name : String) : RPath
deriving DecidableEq, Repr

/-- Existence check `backup_file.exists()`. -/
def pathExists (fs : FsState) (p : RPath) : Bool :=
  match p with
  | .inBackups n => fs.backups.any (fun b => b.name == n)
  | .outside n => fs.others.any (fun q => q.1 == n)

/-- Content a `gzip.open(path).read()` would decompress to, if the path
still exists. -/
def readGz (fs : FsState) (p : RPath) : Option String :=
  match p with
  | .inBackups n => (fs.backups.find? (fun b => b.name == n)).map (fun b => b.content)
  | .outside n => (fs.others.find? (fun q => q.1 == n)).map (fun q => q.2)

/-- Models `restore_backup` (lines 139-153).  A missing path returns
`False`; otherwise a `pre_restore` safety backup is created (with its
retention pruning), and only then is the backup re-opened and decompressed
over the live store.  If the pruning has just deleted the very file being
restored, `gzip.open` raises (`Except.error`). -/
def restore_backup (backup_path : RPath) (now : Nat) (fs : FsState) :
    Except Unit (FsState × Bool) :=
  if pathExists fs backup_path = false then .ok (fs, false)
  else
    let fs1 := create_backup "pre_restore" now fs
    match readGz fs1 backup_path with
    | none => .error ()
    | some content => .ok ({ fs1 with db := content }, true)

/-! ## Migration (lines 465-491)

`migrate_from_json` iterates the parsed legacy document.  Python-level
exceptions inside the loop (in practice: binding a `status`/`notes` value
that SQLite cannot store, such as a nested object, array, or a NULL
`status` in the NOT NULL column) are caught by the surrounding
`try/except`, which returns `False` and leaves the rows recorded so far
committed.  Scalars bind as their SQLite text affinity rendering. -/

/-- SQLite text-affinity binding of a scalar JSON value for the NOT NULL
`status` column; `none` marks a value whose bind (or NOT NULL check)
raises. -/
def bindScalar : JsonVal → Option String
  | .str s => some s
  | .num n => some (toString n)
  | .bool b => some (if b then "1" else "0")
  | .null => none
  | .arr _ => none
  | .obj _ => none

/-- Binding of the nullable `notes` value (`info.get('notes','')`):
`none` marks a bind error, `some x` the stored value. -/
def bindNotes : Option JsonVal → Option (Option String)
  | none => some (some "")
  | some .null => some none
  | some (.str s) => some (some s)
  | some (.num n) => some (some (toString n))
  | some (.bool b) => some (some (if b then "1" else "0"))
  | some (.arr _) => none
  | some (.obj _) => none

/-- First value bound to a key in a JSON object (`dict` lookup; keys of a
parsed JSON object are unique). -/
def jsonGet (kvs : List (String × JsonVal)) (k : String) : Option JsonVal :=
  (kvs.find? (fun p => p.1 == k)).map (fun p => p.2)

/-- Inner loop of `migrate_from_json` over one command's subcommand map
(lines 477-485): skip a non-dict `info` and a dict without `'status'`;
record a row otherwise, stopping with `false` if the bind raises. -/
def migrateSubs (sid command : String) (now : Nat) :
    List (String × JsonVal) → DBState → DBState × Bool
  | [], db => (db, true)
  | (sub, info) :: rest, db =>
      match info with
      | .obj ikvs =>
          match jsonGet ikvs "status" with
          | none => migrateSubs sid command now rest db
          | some sv =>
              match bindScalar sv, bindNotes (jsonGet ikvs "notes") with
              | some status, some notes =>
                  migrateSubs sid command now rest
                    (record_test sid command
                      (if sub == "_self" then none else some sub)
                      status notes "" 0 (some [("migrated", .bool true)]) now db)
              | _, _ => (db, false)
      | _ => migrateSubs sid command now rest db

/-- Outer loop of `migrate_from_json` over the commands (lines 475-485):
skip a non-dict `content` entirely. -/
def migrateEntries (sid : String) (now : Nat) :
    List (String × JsonVal) → DBState → DBState × Bool
  | [], db => (db, true)
  | (command, content) :: rest, db =>
      match content with
      | .obj kvs =>
          match migrateSubs sid command now kvs db with
          | (db1, true) => migrateEntries sid now rest db1
          | (db1, false) => (db1, false)
      | _ => migrateEntries sid now rest db

/-- Models `migrate_from_json` (lines 465-491) on an already-parsed
document.  A document whose top level is not an object makes `.items()`
raise, caught as `False`; otherwise a synthetic migration session wraps the
imported rows and `True` is returned, unless a bind raises mid-way. -/
def migrate_from_json (data : JsonVal) (now : Nat) (db : DBState) : DBState × Bool :=
  match data with
  | .obj kvs =>
      let started := start_session "migration" "migration" "migration" now db
      match migrateEntries started.2 now kvs started.1 with
      | (db1, true) => (end_session started.2 now db1, true)
      | (db1, false) => (db1, false)
  | _ => (db, false)

/-! ## Derived notions used to state the claims -/

/-- The (command, subcommand-or-None) pair a stored row represents, under
the reconciliation step's own normalization (`subcommand or None`). -/
def rowPair (r : TestResultRow) : String × Option String :=
  (r.command, if r.subcommand = "" then none else some r.subcommand)

/-- Well-formedness a parsed registry document has by construction: a JSON
object's keys are unique (commands, and each command's subcommand names),
and a declared subcommand name is a real name, not the base sentinel. -/
def DocWF (doc : RegistryDoc) : Prop :=
  (doc.map Prod.fst).Nodup ∧
    ∀ p ∈ doc, (p.2.subcommands.map Prod.fst).Nodup ∧
      ∀ q ∈ p.2.subcommands, q.1 ≠ ""

instance : DecidablePred DocWF := fun doc =>
  inferInstanceAs (Decidable ((doc.map Prod.fst).Nodup ∧
    ∀ p ∈ doc, (p.2.subcommands.map Prod.fst).Nodup ∧
      ∀ q ∈ p.2.subcommands, q.1 ≠ ""))

/-- Well-formedness of an optional registry document. -/
def DocWFopt : Option RegistryDoc → Prop
  | none => True
  | some doc => DocWF doc

instance : DecidablePred DocWFopt := fun docOpt =>
  match docOpt with
  | none => inferInstanceAs (Decidable True)
  | some doc => inferInstanceAs (Decidable (DocWF doc))

/-- A pair contributed by the registry document to the reconciled view: a
declared subcommand, or a declared base command whose description is
non-empty (the code only synthesizes a base record `if ... and
cmd_data.get('description')`). -/
def docDeclaredPair (docOpt : Option RegistryDoc) (p : String × Option String) : Prop :=
  ∃ doc, docOpt = some doc ∧
    ((∃ info, (p.1, info) ∈ doc ∧ info.description ≠ "" ∧ p.2 = none) ∨
     (∃ c info q, (c, info) ∈ doc ∧ q ∈ info.subcommands ∧ p = (c, some q.1)))

/-- The registry row a reconciliation pass at time `now` writes for the key
(c, s), if the document declares that key. -/
def docLookup (doc : RegistryDoc) (c s : String) (now : Nat) : Option RegistryEntry :=
  match doc.find? (fun p => p.1 == c) with
  | none => none
  | some p =>
      if s = "" then some (baseEntry c p.2 now)
      else (p.2.subcommands.find? (fun q => q.1 == s)).map
        (fun q => subEntry c q.1 q.2 now)

/-- Does the document declare the registry key (c, s)? -/
def declaredIn (doc : RegistryDoc) (c s : String) : Bool :=
  (docLookup doc c s 0).isSome

/-- Can this value be bound for the NOT NULL `status` column without
raising? -/
def subBindOkB : JsonVal → Bool
  | .obj ikvs =>
      match jsonGet ikvs "status" with
      | none => true
      | some sv => (bindScalar sv).isSome && (bindNotes (jsonGet ikvs "notes")).isSome
  | _ => true

/-- All of one command's qualifying subcommand infos bind without raising. -/
def entryBindOkB : JsonVal → Bool
  | .obj ckvs => ckvs.all (fun q => subBindOkB q.2)
  | _ => true

/-- The legacy document's recordable values all bind without raising (true
of every document in the documented legacy format, whose `status`/`notes`
are strings). -/
def bindOkB (kvs : List (String × JsonVal)) : Bool :=
  kvs.all (fun p => entryBindOkB p.2)

/-! ## Concrete instances used by witnesses and counterexamples -/

/-- Shorthand for a stored test-result row. -/
def rowC (c s : String) (t : Nat) (st : String) : TestResultRow :=
  { session_id := "s", command := c, subcommand := s, status := st,
    tested_at := t, notes := some "", error_output := "",
    execution_time_ms := 0, metadata := "\x7b\x7d" }

/-- Store with two rows for the same pair sharing the maximal timestamp. -/
def dbTie : DBState :=
  { DBState.empty with results := [rowC "a" "" 5 "passed", rowC "a" "" 5 "failed"] }

/-- Store with one tested base command, distinct timestamps. -/
def dbOne : DBState :=
  { DBState.empty with results := [rowC "a" "" 5 "passed"] }

/-- Registry document declaring `mod` with an empty description and a
subcommand `ban`. -/
def doc3 : RegistryDoc :=
  [("mod", { description := "", aliases := [],
             subcommands := [("ban", { description := "d", aliases := ["b"] })] })]

/-- Declared metadata of subcommand `ban` in `docC3`. -/
def subC3 : SubInfo := { description := "bd", aliases := ["b"] }

/-- Declared metadata of command `mod` in `docC3`. -/
def infoC3 : CmdInfo :=
  { description := "md", aliases := ["m"], subcommands := [("ban", subC3)] }

/-- Registry document declaring `mod` (non-empty description) with
subcommand `ban`. -/
def docC3 : RegistryDoc := [("mod", infoC3)]

/-- Store with a recorded base-command result for `ping`. -/
def db8 : DBState :=
  { DBState.empty with results := [rowC "ping" "" 5 "passed"] }

/-- Registry document declaring `ping` with an empty-string subcommand
name. -/
def doc8 : RegistryDoc :=
  [("ping", { description := "d", aliases := [],
              subcommands := [("", { description := "s", aliases := [] })] })]

/-- Registry document with one simple command. -/
def doc5 : RegistryDoc :=
  [("ping", { description := "d", aliases := ["p"], subcommands := [] })]

/-- Fresh file system with an empty backups directory. -/
def fs0 : FsState := { db := "DB", backups := [], others := [] }

/-- State after 15 backup creations at seconds 0..14. -/
def fs15 : FsState := (List.range 15).foldl (fun fs t => create_backup "manual" t fs) fs0

/-- Backups directory already holding 11 backups (mtimes 0..10). -/
def fs11 : FsState :=
  { db := "CUR",
    backups := (List.range 11).map (fun t =>
      { name := mkBackupName "manual" t, mtime := t, content := "old" ++ toString t }),
    others := [] }

/-- Backups directory already holding 12 backups (mtimes 0..11). -/
def fs12 : FsState :=
  { db := "CURRENT",
    backups := (List.range 12).map (fun t =>
      { name := mkBackupName "auto" t, mtime := t, content := "x" ++ toString t }),
    others := [] }

/-- File system with a restorable archive outside the backups directory. -/
def fsOut : FsState := { db := "CUR", backups := [], others := [("f.gz", "OLD")] }

/-- Store after recording `trivia` passed at t=1 then failed at t=2. -/
def dbC2 : DBState :=
  record_test "s1" "trivia" none "failed" (some "") "" 0 none 2
    (record_test "s1" "trivia" none "passed" (some "") "" 120 none 1 DBState.empty)

/-- Legacy import document with one well-formed entry, one non-dict entry
and one entry whose infos lack `'status'` or are not dicts. -/
def legacyDoc : List (String × JsonVal) :=
  [("ping", .obj [("_self", .obj [("status", .str "passed"), ("notes", .str "ok")])]),
   ("bad", .num 3),
   ("half", .obj [("x", .str "nah"), ("y", .obj [("nostatus", .str "v")])])]

/-- Two snapshot payload objects with the same bindings in different
construction order. -/
def kvsA : List (String × JsonVal) := [("b", .num 1), ("a", .str "x")]

/-- The other construction order of `kvsA`. -/
def kvsB : List (String × JsonVal) := [("a", .str "x"), ("b", .num 1)]

/-- State after 14 backup creations at seconds 0..13 (retains mtimes
4..13). -/
def fs14 : FsState := (List.range 14).foldl (fun fs t => create_backup "manual" t fs) fs0

/-- The backup file written by `create_backup "manual" t` over the store
content `"DB"`. -/
def bk (t : Nat) : BackupEntry :=
  { name := mkBackupName "manual" t, mtime := t, content := "DB" }

/-! ## Helper lemmas -/

theorem mem_filterPair {rs : List TestResultRow} {c s : String} {r : TestResultRow} :
    r ∈ filterPair rs c s ↔ r ∈ rs ∧ r.command = c ∧ r.subcommand = s := by
  simp [filterPair, List.mem_filter, Bool.and_eq_true, beq_iff_eq, and_assoc]

theorem pickLatest_eq_none {l : List TestResultRow} : pickLatest l = none ↔ l = [] := by
  cases l with
  | nil => simp [pickLatest]
  | cons r rs =>
      cases h : pickLatest rs with
      | none => simp [pickLatest, h]
      | some m =>
          by_cases hgt : m.tested_at > r.tested_at <;> simp [pickLatest, h, hgt]

theorem pickLatest_mem (l : List TestResultRow) :
    ∀ m, pickLatest l = some m → m ∈ l := by
  induction l with
  | nil => intro m h; simp [pickLatest] at h
  | cons r rs ih =>
      intro m h
      cases hrec : pickLatest rs with
      | none =>
          simp only [pickLatest, hrec, Option.some.injEq] at h
          simp [← h]
      | some m2 =>
          simp only [pickLatest, hrec] at h
          by_cases hgt : m2.tested_at > r.tested_at
          · rw [if_pos hgt] at h
            simp only [Option.some.injEq] at h
            exact List.mem_cons_of_mem _ (h ▸ ih m2 hrec)
          · rw [if_neg hgt] at h
            simp only [Option.some.injEq] at h
            simp [← h]

theorem pickLatest_ge (l : List TestResultRow) :
    ∀ m, pickLatest l = some m → ∀ r ∈ l, r.tested_at ≤ m.tested_at := by
  induction l with
  | nil => intro m _ r hr; simp at hr
  | cons r rs ih =>
      intro m h r2 hr2
      cases hrec : pickLatest rs with
      | none =>
          simp only [pickLatest, hrec, Option.some.injEq] at h
          have : rs = [] := pickLatest_eq_none.mp hrec
          subst this
          simp at hr2
          simp [hr2, ← h]
      | some m2 =>
          simp only [pickLatest, hrec] at h
          by_cases hgt : m2.tested_at > r.tested_at
          · rw [if_pos hgt] at h
            simp only [Option.some.injEq] at h
            subst h
            rcases List.mem_cons.mp hr2 with h2 | h2
            · exact h2 ▸ Nat.le_of_lt hgt
            · exact ih m2 hrec r2 h2
          · rw [if_neg hgt] at h
            simp only [Option.some.injEq] at h
            subst h
            rcases List.mem_cons.mp hr2 with h2 | h2
            · exact h2 ▸ Nat.le_refl _
            · exact Nat.le_trans (ih m2 hrec r2 h2) (Nat.le_of_not_lt hgt)

/-- C2: for every store (in particular any store built by a sequence of
`record_test` calls), `get_test_status` returns the projection of one of
the stored rows with maximal `tested_at` for the queried, normalized
(command, subcommand) pair, with no particular tie winner guaranteed, and
the default untested record when the pair has no rows at all. -/
theorem get_test_status_latest (db : DBState) (c : String) (sub : Option String) :
    ((¬ ∃ r ∈ db.results, r.command = c ∧ r.subcommand = normSub sub) →
      get_test_status db c sub = StatusResult.untested) ∧
    ((∃ r ∈ db.results, r.command = c ∧ r.subcommand = normSub sub) →
      ∃ r ∈ db.results, r.command = c ∧ r.subcommand = normSub sub ∧
        get_test_status db c sub =
          StatusResult.found r.status r.tested_at r.notes r.error_output
            r.execution_time_ms ∧
        ∀ r2 ∈ db.results, r2.command = c → r2.subcommand = normSub sub →
          r2.tested_at ≤ r.tested_at) := by
  constructor
  · intro hne
    have hnil : filterPair db.results c (normSub sub) = [] := by
      simp only [filterPair]
      rw [List.filter_eq_nil_iff]
      intro a ha hb
      exact hne ⟨a, ha, by
        simpa [Bool.and_eq_true, beq_iff_eq] using hb⟩
    simp [get_test_status, hnil, pickLatest]
  · rintro ⟨r0, hr0, hc, hs⟩
    have hmem : r0 ∈ filterPair db.results c (normSub sub) :=
      mem_filterPair.mpr ⟨hr0, hc, hs⟩
    obtain ⟨m, hm⟩ : ∃ m, pickLatest (filterPair db.results c (normSub sub)) = some m := by
      cases hp : pickLatest (filterPair db.results c (normSub sub)) with
      | none =>
          rw [pickLatest_eq_none.mp hp] at hmem
          exact absurd hmem (List.not_mem_nil _)
      | some m => exact ⟨m, rfl⟩
    obtain ⟨hmr, hmc, hms⟩ := mem_filterPair.mp (pickLatest_mem _ _ hm)
    refine ⟨m, hmr, hmc, hms, ?_, ?_⟩
    · simp [get_test_status, hm]
    · intro r2 h2 h2c h2s
      exact pickLatest_ge _ _ hm r2 (mem_filterPair.mpr ⟨h2, h2c, h2s⟩)

/-- Witness for C2's theorem: the spec's own scenario, `trivia` recorded
passed at t=1 then failed at t=2. -/
theorem get_test_status_latest_witness :
    ∃ r ∈ dbC2.results, r.command = "trivia" ∧ r.subcommand = normSub none ∧
      get_test_status dbC2 "trivia" none =
        StatusResult.found r.status r.tested_at r.notes r.error_output
          r.execution_time_ms ∧
      ∀ r2 ∈ dbC2.results, r2.command = "trivia" → r2.subcommand = normSub none →
        r2.tested_at ≤ r.tested_at :=
  (get_test_status_latest dbC2 "trivia" none).2 (by decide)


/-! ## Registry reconciliation lemmas -/

theorem find?_filter_eq {α : Type _} (l : List α) (p q : α → Bool)
    (h : ∀ x ∈ l, p x = true → q x = true) :
    (l.filter q).find? p = l.find? p := by
  induction l with
  | nil => rfl
  | cons a t ih =>
      have iht := ih (fun x hx hpx => h x (List.mem_cons_of_mem _ hx) hpx)
      by_cases hq : q a = true
      · rw [List.filter_cons_of_pos hq]
        by_cases hp : p a = true
        · simp [List.find?, hp]
        · have hp2 : p a = false := Bool.not_eq_true _ |>.mp hp
          simp [List.find?, hp2, iht]
      · have hp : p a = false := by
          cases hpa : p a with
          | false => rfl
          | true => exact absurd (h a (List.mem_cons_self _ _) hpa) hq
        rw [List.filter_cons_of_neg hq]
        simp [List.find?, hp, iht]

theorem regLookup_upsert (reg : List RegistryEntry) (e : RegistryEntry) (cq sq : String) :
    regLookup (upsertReg reg e) cq sq =
      if e.command == cq && e.subcommand == sq then some e
      else regLookup reg cq sq := by
  unfold regLookup upsertReg
  rw [List.find?_append]
  by_cases hkey : (e.command == cq && e.subcommand == sq) = true
  · rw [if_pos hkey]
    rw [Bool.and_eq_true] at hkey
    obtain ⟨hc, hs⟩ := hkey
    rw [beq_iff_eq] at hc hs
    have h1 : (reg.filter fun x => !(regKeyIs x e.command e.subcommand)).find?
        (fun x => regKeyIs x cq sq) = none := by
      rw [List.find?_eq_none]
      intro x hx
      rcases List.mem_filter.mp hx with ⟨_, hnx⟩
      rw [Bool.not_eq_true'] at hnx
      simp only [regKeyIs] at hnx ⊢
      rw [← hc, ← hs]
      simp [hnx]
    rw [h1]
    have h2 : regKeyIs e cq sq = true := by
      simp [regKeyIs, ← hc, ← hs]
    simp [List.find?, h2]
  · rw [if_neg hkey]
    have h2 : regKeyIs e cq sq = false := by
      simp only [regKeyIs]
      exact Bool.not_eq_true _ |>.mp hkey
    have h3 : (List.find? (fun x => regKeyIs x cq sq) [e]) = none := by
      simp [List.find?, h2]
    rw [h3]
    rw [Option.or_none]
    exact find?_filter_eq reg _ _ (fun x _ hpx => by
      cases hxe : regKeyIs x e.command e.subcommand with
      | false => simp [hxe]
      | true =>
          exfalso
          simp only [regKeyIs, Bool.and_eq_true, beq_iff_eq] at hpx hxe
          exact hkey (by
            simp only [Bool.and_eq_true, beq_iff_eq, ← hxe.1, ← hxe.2]
            exact ⟨hpx.1, hpx.2⟩))

theorem regLookup_subs_foldl (c : String) (now : Nat) (subs : List (String × SubInfo))
    (hnd : (subs.map Prod.fst).Nodup) (reg : List RegistryEntry) (cq sq : String) :
    regLookup (subs.foldl (fun rg p => upsertReg rg (subEntry c p.1 p.2 now)) reg) cq sq =
      if c == cq then
        match subs.find? (fun q => q.1 == sq) with
        | some q => some (subEntry c q.1 q.2 now)
        | none => regLookup reg cq sq
      else regLookup reg cq sq := by
  induction subs generalizing reg with
  | nil =>
      by_cases hc : (c == cq) = true <;> simp [hc, List.find?]
  | cons p ps ih =>
      have hnd0 : p.1 ∉ ps.map Prod.fst ∧ (ps.map Prod.fst).Nodup := by
        rw [List.map_cons, List.nodup_cons] at hnd
        exact hnd
      rw [List.foldl_cons, ih hnd0.2]
      rw [regLookup_upsert]
      by_cases hc : (c == cq) = true
      · by_cases hq : (p.1 == sq) = true
        · have hq2 : p.1 = sq := beq_iff_eq.mp hq
          have hfind : ps.find? (fun q => q.1 == sq) = none := by
            rw [List.find?_eq_none]
            intro x hx
            have hx1 : x.1 ≠ p.1 := by
              intro hEq
              exact hnd0.1 (hEq ▸ List.mem_map_of_mem Prod.fst hx)
            simp only [beq_iff_eq]
            intro hEq
            exact hx1 (hEq.trans hq2.symm)
          have hcond : ((subEntry c p.1 p.2 now).command == cq &&
              (subEntry c p.1 p.2 now).subcommand == sq) = true := by
            simp only [subEntry]
            simp [hc, hq]
          simp [List.find?, hq, hfind, hc, hcond]
        · have hcond : ((subEntry c p.1 p.2 now).command == cq &&
              (subEntry c p.1 p.2 now).subcommand == sq) = false := by
            simp only [subEntry]
            simp [hq]
          simp [List.find?, hq, hcond]
      · have hcond : ((subEntry c p.1 p.2 now).command == cq &&
            (subEntry c p.1 p.2 now).subcommand == sq) = false := by
          simp only [subEntry]
          simp [hc]
        simp only [hc]
        rw [hcond]
        simp

theorem regLookup_applyCmd (now : Nat) (reg : List RegistryEntry) (c : String)
    (info : CmdInfo) (hnd : (info.subcommands.map Prod.fst).Nodup)
    (hne : ∀ q ∈ info.subcommands, q.1 ≠ "") (cq sq : String) :
    regLookup (applyCmd now reg c info) cq sq =
      if c == cq then
        (if sq = "" then some (baseEntry c info now)
         else
           match info.subcommands.find? (fun q => q.1 == sq) with
           | some q => some (subEntry c q.1 q.2 now)
           | none => regLookup reg cq sq)
      else regLookup reg cq sq := by
  unfold applyCmd
  rw [regLookup_subs_foldl c now info.subcommands hnd]
  rw [regLookup_upsert]
  by_cases hc : (c == cq) = true
  · by_cases hs : sq = ""
    · subst hs
      have hfind : info.subcommands.find? (fun q => q.1 == "") = none := by
        rw [List.find?_eq_none]
        intro x hx
        simp only [beq_iff_eq]
        exact hne x hx
      have hcond : ((baseEntry c info now).command == cq &&
          (baseEntry c info now).subcommand == "") = true := by
        simp only [baseEntry]
        simp [hc]
      simp [hfind, hc, hcond]
    · cases hfind : info.subcommands.find? (fun q => q.1 == sq) with
      | some q => simp [hfind, hc, hs]
      | none =>
          have hcond : ((baseEntry c info now).command == cq &&
              (baseEntry c info now).subcommand == sq) = false := by
            simp only [baseEntry]
            simp [beq_iff_eq]
            intro _
            exact fun hEq => hs hEq.symm
          simp [hfind, hc, hs, hcond]
  · have hcond : ((baseEntry c info now).command == cq &&
        (baseEntry c info now).subcommand == sq) = false := by
      simp only [baseEntry]
      simp [hc]
    simp [hc, hcond]

theorem regLookup_doc_foldl (doc : RegistryDoc) (now : Nat) (hwf : DocWF doc)
    (reg : List RegistryEntry) (cq sq : String) :
    regLookup (doc.foldl (fun rg p => applyCmd now rg p.1 p.2) reg) cq sq =
      match docLookup doc cq sq now with
      | some e => some e
      | none => regLookup reg cq sq := by
  induction doc generalizing reg with
  | nil => simp [docLookup, List.find?]
  | cons p rest ih =>
      obtain ⟨hndc, hsub⟩ := hwf
      rw [List.map_cons, List.nodup_cons] at hndc
      have hwfrest : DocWF rest :=
        ⟨hndc.2, fun q hq => hsub q (List.mem_cons_of_mem _ hq)⟩
      obtain ⟨hpnd, hpne⟩ := hsub p (List.mem_cons_self _ _)
      rw [List.foldl_cons, ih hwfrest]
      by_cases hc : (p.1 == cq) = true
      · have hc2 : p.1 = cq := beq_iff_eq.mp hc
        have hrest_none : docLookup rest cq sq now = none := by
          unfold docLookup
          have hfn : rest.find? (fun x => x.1 == cq) = none := by
            rw [List.find?_eq_none]
            intro x hx
            simp only [beq_iff_eq]
            intro hEq
            exact hndc.1 (by rw [hc2, ← hEq]; exact List.mem_map_of_mem Prod.fst hx)
          rw [hfn]
        simp only [hrest_none]
        rw [regLookup_applyCmd now reg p.1 p.2 hpnd hpne]
        by_cases hs : sq = ""
        · subst hs
          have hdl : docLookup (p :: rest) cq "" now = some (baseEntry cq p.2 now) := by
            unfold docLookup
            simp [List.find?, hc]
          simp [hdl, hc2]
        · cases hfind : p.2.subcommands.find? (fun q => q.1 == sq) with
          | some q =>
              have hdl : docLookup (p :: rest) cq sq now =
                  some (subEntry cq q.1 q.2 now) := by
                unfold docLookup
                simp [List.find?, hc, hs, hfind]
              simp [hdl, hs, hfind, hc2]
          | none =>
              have hdl : docLookup (p :: rest) cq sq now = none := by
                unfold docLookup
                simp [List.find?, hc, hs, hfind]
              simp [hdl, hs, hfind, hc2]
      · have hdl : docLookup (p :: rest) cq sq now = docLookup rest cq sq now := by
          unfold docLookup
          simp [List.find?, hc]
        rw [hdl]
        rw [regLookup_applyCmd now reg p.1 p.2 hpnd hpne]
        simp [hc]

theorem regLookup_update (doc : RegistryDoc) (now : Nat) (db : DBState)
    (hwf : DocWF doc) (cq sq : String) :
    regLookup ((update_command_registry doc now db).registry) cq sq =
      match docLookup doc cq sq now with
      | some e => some e
      | none => regLookup db.registry cq sq := by
  unfold update_command_registry
  exact regLookup_doc_foldl doc now hwf db.registry cq sq

theorem docLookup_retime (doc : RegistryDoc) (cq sq : String) (t1 t2 : Nat) :
    docLookup doc cq sq t2 = (docLookup doc cq sq t1).map
      (fun e => { e with last_modified := t2, discovered_at := t2 }) := by
  unfold docLookup
  cases doc.find? (fun p => p.1 == cq) with
  | none => rfl
  | some p =>
      by_cases hs : sq = ""
      · simp [hs, baseEntry]
      · simp only [hs, if_false]
        cases p.2.subcommands.find? (fun q => q.1 == sq) with
        | none => rfl
        | some q => simp [subEntry]

theorem declaredIn_isSome (doc : RegistryDoc) (cq sq : String) (now : Nat) :
    declaredIn doc cq sq = (docLookup doc cq sq now).isSome := by
  unfold declaredIn
  rw [docLookup_retime doc cq sq now 0]
  cases docLookup doc cq sq now <;> rfl

/-- C5 (amended): reapplying the same registry document leaves every
registry row identical to its state after the first application except for
the `last_modified` AND the `discovered_at` fields — SQLite
`INSERT OR REPLACE` deletes the old row, so the omitted `discovered_at`
column is re-defaulted to the statement time rather than preserved.  Keys
not declared by the document are untouched. -/
theorem update_registry_idem (db : DBState) (doc : RegistryDoc) (t1 t2 : Nat)
    (cq sq : String) (hwf : DocWF doc) :
    regLookup ((update_command_registry doc t2
        (update_command_registry doc t1 db)).registry) cq sq =
      (regLookup ((update_command_registry doc t1 db).registry) cq sq).map
        (fun e => if declaredIn doc cq sq then
            { e with last_modified := t2, discovered_at := t2 } else e) := by
  rw [regLookup_update doc t2 _ hwf, regLookup_update doc t1 db hwf]
  cases hdl : docLookup doc cq sq t1 with
  | some e =>
      have h2 : docLookup doc cq sq t2 =
          some { e with last_modified := t2, discovered_at := t2 } := by
        rw [docLookup_retime doc cq sq t1 t2, hdl]
        rfl
      have hd : declaredIn doc cq sq = true := by
        rw [declaredIn_isSome doc cq sq t1, hdl]
        rfl
      simp [h2, hd]
  | none =>
      have h2 : docLookup doc cq sq t2 = none := by
        rw [docLookup_retime doc cq sq t1 t2, hdl]
        rfl
      have hd : declaredIn doc cq sq = false := by
        rw [declaredIn_isSome doc cq sq t1, hdl]
        rfl
      simp only [h2, hd]
      cases regLookup db.registry cq sq <;> simp

/-- Witness for C5's theorem: the one-command document applied at t=3 and
t=9. -/
theorem update_registry_idem_witness :
    regLookup ((update_command_registry doc5 9
        (update_command_registry doc5 3 DBState.empty)).registry) "ping" "" =
      (regLookup ((update_command_registry doc5 3 DBState.empty).registry) "ping" "").map
        (fun e => if declaredIn doc5 "ping" "" then
            { e with last_modified := 9, discovered_at := 9 } else e) :=
  update_registry_idem DBState.empty doc5 3 9 "ping" "" (by decide)

/-- Counterexample to C5 as stated: applying `doc5` at t=0 and again at
t=1 produces the same logical row (same key, description, aliases) whose
`discovered_at` — a field other than `last_modified` — has changed from 0
to 1, so the rows are not identical save for `last_modified`. -/
theorem update_registry_idem_cex :
    (regLookup ((update_command_registry doc5 1
        (update_command_registry doc5 0 DBState.empty)).registry) "ping" "").map
        (fun e => e.discovered_at) ≠
      (regLookup ((update_command_registry doc5 0 DBState.empty).registry) "ping" "").map
        (fun e => e.discovered_at) ∧
    (regLookup ((update_command_registry doc5 1
        (update_command_registry doc5 0 DBState.empty)).registry) "ping" "").map
        (fun e => (e.command, e.subcommand, e.description, e.aliases)) =
      (regLookup ((update_command_registry doc5 0 DBState.empty).registry) "ping" "").map
        (fun e => (e.command, e.subcommand, e.description, e.aliases)) := by
  constructor
  · decide
  · decide

/-! ## Backup retention lemmas -/

theorem cleanup_length_le (keep : Nat) (fs : FsState) (hk : 0 < keep) :
    (cleanupOldBackups keep fs).backups.length ≤ max keep fs.backups.length := by
  unfold cleanupOldBackups
  by_cases hgt : (List.insertionSort bkLe fs.backups).length > keep
  · rw [if_pos hgt]
    simp only [List.length_drop]
    omega
  · rw [if_neg hgt]
    exact Nat.le_max_right _ _

/-- C6: after every `create_backup`, at most 10 backup files remain; every
deleted file is no newer than every survivor (deletion is oldest-first);
and in the concrete run of 15 creations at seconds 0..14 starting from an
empty directory, exactly 10 files remain, the ones created at seconds
5..14. -/
theorem backup_retention :
    (∀ (fs : FsState) (ty : String) (now : Nat),
        (create_backup ty now fs).backups.length ≤ 10) ∧
    (∀ (fs : FsState) (ty : String) (now : Nat),
        ∀ d ∈ (backupWrite ty now fs).backups,
          d ∉ (create_backup ty now fs).backups →
          ∀ b ∈ (create_backup ty now fs).backups, d.mtime ≤ b.mtime) ∧
    (fs15.backups.length = 10 ∧
      fs15.backups.map (fun b => b.mtime) = [5, 6, 7, 8, 9, 10, 11, 12, 13, 14]) := by
  haveI : IsTotal BackupEntry bkLe := ⟨fun a b => Nat.le_total a.mtime b.mtime⟩
  haveI : IsTrans BackupEntry bkLe := ⟨fun _ _ _ h1 h2 => Nat.le_trans h1 h2⟩
  refine ⟨?_, ?_, by decide, by decide⟩
  · intro fs ty now
    unfold create_backup cleanupOldBackups
    by_cases hgt : (List.insertionSort bkLe (backupWrite ty now fs).backups).length > 10
    · rw [if_pos hgt]
      simp only [List.length_drop]
      omega
    · rw [if_neg hgt]
      have hlen : (List.insertionSort bkLe (backupWrite ty now fs).backups).length =
          (backupWrite ty now fs).backups.length :=
        (List.perm_insertionSort bkLe _).length_eq
      omega
  · intro fs ty now d hd hdel b hb
    unfold create_backup cleanupOldBackups at hdel hb
    by_cases hgt : (List.insertionSort bkLe (backupWrite ty now fs).backups).length > 10
    · rw [if_pos hgt] at hdel hb
      simp only at hdel hb
      set sorted := List.insertionSort bkLe (backupWrite ty now fs).backups with hsorted
      have hdsorted : d ∈ sorted :=
        (List.perm_insertionSort bkLe _).mem_iff.mpr hd
      have hdtake : d ∈ sorted.take (sorted.length - 10) := by
        have := (List.take_append_drop (sorted.length - 10) sorted).symm
        rw [this] at hdsorted
        rcases List.mem_append.mp hdsorted with h | h
        · exact h
        · exact absurd h hdel
      have hsort : List.Sorted bkLe sorted := List.sorted_insertionSort bkLe _
      have hpw : List.Pairwise bkLe
          (sorted.take (sorted.length - 10) ++ sorted.drop (sorted.length - 10)) := by
        rw [List.take_append_drop]
        exact hsort
      exact (List.pairwise_append.mp hpw).2.2 d hdtake b hb
    · rw [if_neg hgt] at hdel hb
      exact absurd hd hdel

/-- Witness for C6's theorem: in the 15-backup run, the file deleted by the
15th creation (mtime 4) is older than a surviving file (mtime 5). -/
theorem backup_retention_witness : (bk 4).mtime ≤ (bk 5).mtime :=
  backup_retention.2.1 fs14 "manual" 14 (bk 4) (by decide) (by decide) (bk 5) (by decide)

/-- C7 (amended): `restore_backup` returns the failure value `False`
rather than raising when the path does not exist; when the path exists it
first creates the `pre_restore` safety backup and, provided the path still
exists after that backup's retention pruning (in particular whenever the
path is outside the backups directory, or not among the pruned oldest),
replaces the live store with the decompressed backup contents and returns
`True`. -/
theorem restore_backup_result (fs : FsState) (p : RPath) (now : Nat) :
    (pathExists fs p = false → restore_backup p now fs = .ok (fs, false)) ∧
    (pathExists fs p = true →
      ∀ content, readGz (create_backup "pre_restore" now fs) p = some content →
        restore_backup p now fs =
          .ok ({ create_backup "pre_restore" now fs with db := content }, true)) := by
  constructor
  · intro hne
    unfold restore_backup
    rw [if_pos hne]
  · intro hex content hread
    unfold restore_backup
    rw [if_neg (by simp [hex])]
    simp only [hread]

/-- Witness for C7's theorem: restoring the archive `f.gz` that lives
outside the backups directory succeeds and replaces the store content
`CUR` with the decompressed `OLD`, after taking the pre_restore backup. -/
theorem restore_backup_result_witness :
    restore_backup (.outside "f.gz") 100 fsOut =
      .ok ({ create_backup "pre_restore" 100 fsOut with db := "OLD" }, true) :=
  (restore_backup_result fsOut (.outside "f.gz") 100).2 (by decide) "OLD" (by decide)

/-- Counterexample to C7 as stated: with 12 backups already present, the
oldest backup exists when the call begins, yet `restore_backup` raises
(the pre_restore backup's pruning deletes it before it is read) instead of
replacing the store and returning success. -/
theorem restore_backup_cex :
    pathExists fs12 (.inBackups (mkBackupName "auto" 0)) = true ∧
    restore_backup (.inBackups (mkBackupName "auto" 0)) 200 fs12 = .error () := by
  exact ⟨by decide, rfl⟩

/-- C9: a store state on which `restore_backup` raises instead of
returning a boolean: the backups directory holds 11 (> 10) backups, the
requested path is the oldest of them and exists at call time, but the
`pre_restore` safety backup's retention pruning deletes that very file
before it is read back. -/
theorem restore_prune_races_read :
    fs11.backups.length = 11 ∧
    pathExists fs11 (.inBackups (mkBackupName "manual" 0)) = true ∧
    (∀ b ∈ fs11.backups, (0 : Nat) ≤ b.mtime) ∧
    (fs11.backups.find? (fun b => b.name == mkBackupName "manual" 0)).map
        (fun b => b.mtime) = some 0 ∧
    restore_backup (.inBackups (mkBackupName "manual" 0)) 100 fs11 = .error () := by
  refine ⟨by decide, by decide, by decide, by decide, rfl⟩

/-! ## Migration lemmas -/

theorem migrateSubs_spec (sid cmd : String) (now : Nat) :
    ∀ (subs : List (String × JsonVal)) (db : DBState),
      subs.all (fun q => subBindOkB q.2) = true →
      (migrateSubs sid cmd now subs db).2 = true ∧
      (migrateSubs sid cmd now subs db).1.sessions = db.sessions ∧
      ∃ extra, (migrateSubs sid cmd now subs db).1.results = db.results ++ extra ∧
        ∀ r ∈ extra, r.command = cmd ∧ ∃ sub info, (sub, info) ∈ subs ∧
          ∃ ikvs, info = JsonVal.obj ikvs ∧ jsonGet ikvs "status" ≠ none := by
  intro subs
  induction subs with
  | nil =>
      intro db _
      exact ⟨rfl, rfl, [], by simp [migrateSubs], by simp⟩
  | cons q rest ih =>
      intro db hall
      obtain ⟨sub, info⟩ := q
      rw [List.all_cons] at hall
      rw [Bool.and_eq_true] at hall
      obtain ⟨hq, hrest⟩ := hall
      cases info with
      | obj ikvs =>
          cases hst : jsonGet ikvs "status" with
          | none =>
              simp only [migrateSubs, hst]
              obtain ⟨h1, hsess, extra, heq, hmem⟩ := ih db hrest
              refine ⟨h1, hsess, extra, heq, fun r hr => ?_⟩
              obtain ⟨hc, s2, i2, hm, hrest2⟩ := hmem r hr
              exact ⟨hc, s2, i2, List.mem_cons_of_mem _ hm, hrest2⟩
          | some sv =>
              simp only [subBindOkB, hst, Bool.and_eq_true] at hq
              obtain ⟨hbs, hbn⟩ := hq
              obtain ⟨status, hstatus⟩ := Option.isSome_iff_exists.mp hbs
              obtain ⟨notes, hnotes⟩ := Option.isSome_iff_exists.mp hbn
              simp only [migrateSubs, hst, hstatus, hnotes]
              obtain ⟨h1, hsess, extra, heq, hmem⟩ :=
                ih (record_test sid cmd (if sub == "_self" then none else some sub)
                  status notes "" 0 (some [("migrated", .bool true)]) now db) hrest
              refine ⟨h1, hsess, ?_⟩
              refine ⟨(⟨sid, cmd, normSub (if sub == "_self" then none else some sub),
                  status, now, notes, "", 0,
                  dumpsVal false (.obj [("migrated", JsonVal.bool true)])⟩ :
                    TestResultRow) :: extra, ?_, ?_⟩
              · rw [heq]
                simp [record_test, List.append_assoc]
              · intro r hr
                rcases List.mem_cons.mp hr with hr0 | hr1
                · subst hr0
                  exact ⟨rfl, sub, .obj ikvs, List.mem_cons_self _ _, ikvs, rfl, by
                    simp [hst]⟩
                · obtain ⟨hc, s2, i2, hm, hrest2⟩ := hmem r hr1
                  exact ⟨hc, s2, i2, List.mem_cons_of_mem _ hm, hrest2⟩
      | null =>
          simp only [migrateSubs]
          obtain ⟨h1, hsess, extra, heq, hmem⟩ := ih db hrest
          refine ⟨h1, hsess, extra, heq, fun r hr => ?_⟩
          obtain ⟨hc, s2, i2, hm, hrest2⟩ := hmem r hr
          exact ⟨hc, s2, i2, List.mem_cons_of_mem _ hm, hrest2⟩
      | bool b =>
          simp only [migrateSubs]
          obtain ⟨h1, hsess, extra, heq, hmem⟩ := ih db hrest
          refine ⟨h1, hsess, extra, heq, fun r hr => ?_⟩
          obtain ⟨hc, s2, i2, hm, hrest2⟩ := hmem r hr
          exact ⟨hc, s2, i2, List.mem_cons_of_mem _ hm, hrest2⟩
      | num n =>
          simp only [migrateSubs]
          obtain ⟨h1, hsess, extra, heq, hmem⟩ := ih db hrest
          refine ⟨h1, hsess, extra, heq, fun r hr => ?_⟩
          obtain ⟨hc, s2, i2, hm, hrest2⟩ := hmem r hr
          exact ⟨hc, s2, i2, List.mem_cons_of_mem _ hm, hrest2⟩
      | str s =>
          simp only [migrateSubs]
          obtain ⟨h1, hsess, extra, heq, hmem⟩ := ih db hrest
          refine ⟨h1, hsess, extra, heq, fun r hr => ?_⟩
          obtain ⟨hc, s2, i2, hm, hrest2⟩ := hmem r hr
          exact ⟨hc, s2, i2, List.mem_cons_of_mem _ hm, hrest2⟩
      | arr xs =>
          simp only [migrateSubs]
          obtain ⟨h1, hsess, extra, heq, hmem⟩ := ih db hrest
          refine ⟨h1, hsess, extra, heq, fun r hr => ?_⟩
          obtain ⟨hc, s2, i2, hm, hrest2⟩ := hmem r hr
          exact ⟨hc, s2, i2, List.mem_cons_of_mem _ hm, hrest2⟩

theorem migrateEntries_spec (sid : String) (now : Nat) :
    ∀ (kvs : List (String × JsonVal)) (db : DBState),
      bindOkB kvs = true →
      (migrateEntries sid now kvs db).2 = true ∧
      (migrateEntries sid now kvs db).1.sessions = db.sessions ∧
      ∃ extra, (migrateEntries sid now kvs db).1.results = db.results ++ extra ∧
        ∀ r ∈ extra, ∃ c content, (c, content) ∈ kvs ∧ r.command = c ∧
          ∃ ckvs, content = JsonVal.obj ckvs ∧ ∃ sub info, (sub, info) ∈ ckvs ∧
            ∃ ikvs, info = JsonVal.obj ikvs ∧ jsonGet ikvs "status" ≠ none := by
  intro kvs
  induction kvs with
  | nil =>
      intro db _
      exact ⟨rfl, rfl, [], by simp [migrateEntries], by simp⟩
  | cons q rest ih =>
      intro db hall
      obtain ⟨c, content⟩ := q
      rw [bindOkB, List.all_cons, Bool.and_eq_true] at hall
      obtain ⟨hq, hrest⟩ := hall
      cases content with
      | obj ckvs =>
          have hsub := migrateSubs_spec sid c now ckvs db (by
            simpa [entryBindOkB] using hq)
          cases hms : migrateSubs sid c now ckvs db with
          | mk db1 b =>
              rw [hms] at hsub
              obtain ⟨hb, hsess1, extra1, heq1, hmem1⟩ := hsub
              simp only at hb hsess1 heq1
              subst hb
              simp only [migrateEntries, hms]
              obtain ⟨h2, hsess2, extra2, heq2, hmem2⟩ := ih db1 hrest
              refine ⟨h2, by rw [hsess2, hsess1], extra1 ++ extra2, ?_, ?_⟩
              · rw [heq2, heq1, List.append_assoc]
              · intro r hr
                rcases List.mem_append.mp hr with hr1 | hr2
                · obtain ⟨hc, sub, info, hm, hr3⟩ := hmem1 r hr1
                  exact ⟨c, .obj ckvs, List.mem_cons_self _ _, hc, ckvs, rfl,
                    sub, info, hm, hr3⟩
                · obtain ⟨c2, content2, hm2, hr3⟩ := hmem2 r hr2
                  exact ⟨c2, content2, List.mem_cons_of_mem _ hm2, hr3⟩
      | null =>
          simp only [migrateEntries]
          obtain ⟨h2, hsess2, extra2, heq2, hmem2⟩ := ih db hrest
          refine ⟨h2, hsess2, extra2, heq2, fun r hr => ?_⟩
          obtain ⟨c2, content2, hm2, hr3⟩ := hmem2 r hr
          exact ⟨c2, content2, List.mem_cons_of_mem _ hm2, hr3⟩
      | bool b =>
          simp only [migrateEntries]
          obtain ⟨h2, hsess2, extra2, heq2, hmem2⟩ := ih db hrest
          refine ⟨h2, hsess2, extra2, heq2, fun r hr => ?_⟩
          obtain ⟨c2, content2, hm2, hr3⟩ := hmem2 r hr
          exact ⟨c2, content2, List.mem_cons_of_mem _ hm2, hr3⟩
      | num n =>
          simp only [migrateEntries]
          obtain ⟨h2, hsess2, extra2, heq2, hmem2⟩ := ih db hrest
          refine ⟨h2, hsess2, extra2, heq2, fun r hr => ?_⟩
          obtain ⟨c2, content2, hm2, hr3⟩ := hmem2 r hr
          exact ⟨c2, content2, List.mem_cons_of_mem _ hm2, hr3⟩
      | str s =>
          simp only [migrateEntries]
          obtain ⟨h2, hsess2, extra2, heq2, hmem2⟩ := ih db hrest
          refine ⟨h2, hsess2, extra2, heq2, fun r hr => ?_⟩
          obtain ⟨c2, content2, hm2, hr3⟩ := hmem2 r hr
          exact ⟨c2, content2, List.mem_cons_of_mem _ hm2, hr3⟩
      | arr xs =>
          simp only [migrateEntries]
          obtain ⟨h2, hsess2, extra2, heq2, hmem2⟩ := ih db hrest
          refine ⟨h2, hsess2, extra2, heq2, fun r hr => ?_⟩
          obtain ⟨c2, content2, hm2, hr3⟩ := hmem2 r hr
          exact ⟨c2, content2, List.mem_cons_of_mem _ hm2, hr3⟩

/-- C10: on a legacy import document (top-level object whose recordable
values bind as SQLite scalars, as the documented legacy format guarantees),
`migrate_from_json` silently skips every entry whose command content is not
a dict and every per-subcommand info that is not a dict containing
`'status'`: every row it records comes from a dict content with a dict
info carrying `'status'`, no failure is signalled, and `True` is
returned. -/
theorem migrate_from_json_skips (kvs : List (String × JsonVal)) (now : Nat)
    (db : DBState) (hok : bindOkB kvs = true) :
    (migrate_from_json (.obj kvs) now db).2 = true ∧
    ∃ extra, (migrate_from_json (.obj kvs) now db).1.results = db.results ++ extra ∧
      ∀ r ∈ extra, ∃ c content, (c, content) ∈ kvs ∧ r.command = c ∧
        ∃ ckvs, content = JsonVal.obj ckvs ∧ ∃ sub info, (sub, info) ∈ ckvs ∧
          ∃ ikvs, info = JsonVal.obj ikvs ∧ jsonGet ikvs "status" ≠ none := by
  have hspec := migrateEntries_spec (start_session "migration" "migration" "migration" now db).2
    now kvs (start_session "migration" "migration" "migration" now db).1 hok
  simp only [migrate_from_json]
  cases hme : migrateEntries (start_session "migration" "migration" "migration" now db).2
      now kvs (start_session "migration" "migration" "migration" now db).1 with
  | mk db1 b =>
      rw [hme] at hspec
      obtain ⟨hb, _, extra, heq, hmem⟩ := hspec
      simp only at hb heq
      subst hb
      refine ⟨rfl, extra, ?_, hmem⟩
      simpa [end_session, start_session] using heq

/-- Witness for C10's theorem: the mixed legacy document `legacyDoc`
(one good entry, one non-dict entry, one entry with unusable infos) still
migrates with result `True`. -/
theorem migrate_from_json_skips_witness :
    (migrate_from_json (.obj legacyDoc) 7 DBState.empty).2 = true :=
  (migrate_from_json_skips legacyDoc 7 DBState.empty (by decide)).1


/-! ## Snapshot checksum lemmas -/

theorem charToNat_inj {a b : Char} (h : a.toNat = b.toNat) : a = b :=
  Char.ext (UInt32.ext h)

theorem charListLe_total : ∀ a b, charListLe a b = true ∨ charListLe b a = true := by
  intro a
  induction a with
  | nil => intro b; exact Or.inl rfl
  | cons x xs ih =>
      intro b
      cases b with
      | nil => exact Or.inr rfl
      | cons y ys =>
          rcases Nat.lt_trichotomy x.toNat y.toNat with h | h | h
          · left
            simp [charListLe, h]
          · rcases ih ys with h2 | h2
            · left
              simp [charListLe, h, Nat.lt_irrefl, h2]
            · right
              simp [charListLe, h, Nat.lt_irrefl, h2]
          · right
            simp [charListLe, h]
  
theorem charListLe_trans :
    ∀ a b c, charListLe a b = true → charListLe b c = true →
      charListLe a c = true := by
  intro a
  induction a with
  | nil => intro b c _ _; rfl
  | cons x xs ih =>
      intro b c hab hbc
      cases b with
      | nil => simp [charListLe] at hab
      | cons y ys =>
          cases c with
          | nil => simp [charListLe] at hbc
          | cons z zs =>
              rcases Nat.lt_trichotomy x.toNat y.toNat with hxy | hxy | hxy
              · rcases Nat.lt_trichotomy y.toNat z.toNat with hyz | hyz | hyz
                · simp [charListLe, Nat.lt_trans hxy hyz]
                · simp [charListLe, hyz ▸ hxy]
                · exfalso
                  simp [charListLe, hyz, Nat.lt_asymm hyz] at hbc
              · rcases Nat.lt_trichotomy y.toNat z.toNat with hyz | hyz | hyz
                · simp [charListLe, hxy ▸ hyz]
                · have hxz : x.toNat = z.toNat := hxy.trans hyz
                  simp only [charListLe, hxy, Nat.lt_irrefl, if_false] at hab
                  simp only [charListLe, hyz, Nat.lt_irrefl, if_false] at hbc
                  simp only [charListLe, hxz, Nat.lt_irrefl, if_false]
                  exact ih ys zs hab hbc
                · exfalso
                  simp [charListLe, hyz, Nat.lt_asymm hyz] at hbc
              · exfalso
                simp [charListLe, hxy, Nat.lt_asymm hxy] at hab

theorem charListLe_antisymm :
    ∀ a b, charListLe a b = true → charListLe b a = true → a = b := by
  intro a
  induction a with
  | nil =>
      intro b _ hba
      cases b with
      | nil => rfl
      | cons y ys => simp [charListLe] at hba
  | cons x xs ih =>
      intro b hab hba
      cases b with
      | nil => simp [charListLe] at hab
      | cons y ys =>
          rcases Nat.lt_trichotomy x.toNat y.toNat with h | h | h
          · exfalso
            simp [charListLe, h, Nat.lt_asymm h] at hba
          · have hxy : x = y := charToNat_inj h
            subst hxy
            simp only [charListLe, Nat.lt_irrefl, if_false] at hab hba
            rw [ih ys hab hba]
          · exfalso
            simp [charListLe, h, Nat.lt_asymm h] at hab

theorem keyLe_antisymm_fst {a b : String × String}
    (hab : keyLe a b) (hba : keyLe b a) : a.1 = b.1 :=
  String.ext (charListLe_antisymm _ _ hab hba)

theorem dumpsPairs_eq_map (sk : Bool) (kvs : List (String × JsonVal)) :
    dumpsPairs sk kvs = kvs.map (fun p => (p.1, dumpsVal sk p.2)) := by
  induction kvs with
  | nil => rfl
  | cons p rest ih =>
      obtain ⟨k, v⟩ := p
      simp [dumpsPairs, ih]

theorem strictSorted_perm_eq :
    ∀ (l1 l2 : List (String × String)), l1.Perm l2 →
      l1.Pairwise (fun a b => keyLe a b ∧ a.1 ≠ b.1) →
      l2.Pairwise (fun a b => keyLe a b ∧ a.1 ≠ b.1) →
      l1 = l2 := by
  intro l1
  induction l1 with
  | nil =>
      intro l2 hp _ _
      rw [(hp.symm.eq_nil : l2 = [])]
  | cons a t ih =>
      intro l2 hp h1 h2
      cases l2 with
      | nil => exact absurd hp.eq_nil (by simp)
      | cons b t2 =>
          by_cases hab : a = b
          · subst hab
            rw [ih t2 hp.cons_inv (List.pairwise_cons.mp h1).2
              (List.pairwise_cons.mp h2).2]
          · exfalso
            have ha2 : a ∈ t2 := by
              rcases List.mem_cons.mp (hp.mem_iff.mp (List.mem_cons_self a t)) with h | h
              · exact absurd h hab
              · exact h
            have hb1 : b ∈ t := by
              rcases List.mem_cons.mp (hp.mem_iff.mpr (List.mem_cons_self b t2)) with h | h
              · exact absurd h.symm hab
              · exact h
            have hfwd := (List.pairwise_cons.mp h1).1 b hb1
            have hbwd := (List.pairwise_cons.mp h2).1 a ha2
            exact hfwd.2 (keyLe_antisymm_fst hfwd.1 hbwd.1)

theorem sorted_keyLe_strict (l : List (String × String))
    (hnd : (l.map Prod.fst).Nodup) (hs : l.Pairwise keyLe) :
    l.Pairwise (fun a b => keyLe a b ∧ a.1 ≠ b.1) :=
  hs.and (List.pairwise_map.mp hnd)

theorem dumps_obj_perm (kvs1 kvs2 : List (String × JsonVal)) (hperm : kvs1.Perm kvs2)
    (hnd : (kvs1.map Prod.fst).Nodup) :
    dumpsVal true (.obj kvs1) = dumpsVal true (.obj kvs2) := by
  haveI : IsTotal (String × String) keyLe :=
    ⟨fun a b => charListLe_total a.1.data b.1.data⟩
  haveI : IsTrans (String × String) keyLe :=
    ⟨fun a b c h1 h2 => charListLe_trans a.1.data b.1.data c.1.data h1 h2⟩
  have h1 := dumpsPairs_eq_map true kvs1
  have h2 := dumpsPairs_eq_map true kvs2
  have hperm2 : (dumpsPairs true kvs1).Perm (dumpsPairs true kvs2) := by
    rw [h1, h2]
    exact hperm.map _
  have hnd1 : ((dumpsPairs true kvs1).map Prod.fst).Nodup := by
    rw [h1, List.map_map]
    have hfst : (Prod.fst ∘ fun p : String × JsonVal => (p.1, dumpsVal true p.2)) =
        Prod.fst := by
      funext p
      rfl
    rw [hfst]
    exact hnd
  have hnd2 : ((dumpsPairs true kvs2).map Prod.fst).Nodup :=
    ((hperm2.map Prod.fst).nodup_iff).mp hnd1
  have hsorted1 : (List.insertionSort keyLe (dumpsPairs true kvs1)).Pairwise keyLe :=
    List.sorted_insertionSort keyLe _
  have hsorted2 : (List.insertionSort keyLe (dumpsPairs true kvs2)).Pairwise keyLe :=
    List.sorted_insertionSort keyLe _
  have hperm3 : (List.insertionSort keyLe (dumpsPairs true kvs1)).Perm
      (List.insertionSort keyLe (dumpsPairs true kvs2)) :=
    (List.perm_insertionSort _ _).trans (hperm2.trans (List.perm_insertionSort _ _).symm)
  have heq := strictSorted_perm_eq _ _ hperm3
    (sorted_keyLe_strict _
      (((List.perm_insertionSort keyLe _).map Prod.fst).nodup_iff.mpr hnd1) hsorted1)
    (sorted_keyLe_strict _
      (((List.perm_insertionSort keyLe _).map Prod.fst).nodup_iff.mpr hnd2) hsorted2)
  simp only [dumpsVal]
  rw [heq]
  simp

/-- C4 (amended): with no intervening writes, a second `create_snapshot`
yields the same checksum as the first PROVIDED the two wall-clock readings
coincide — the hashed `snapshot_data` embeds `datetime.now()`, so the
checksum is a function of the captured clock besides the store contents;
and the checksum is insensitive to map key ordering: permuting the
bindings of the serialized object leaves the key-sorted serialization's
digest unchanged. -/
theorem snapshot_checksum_det :
    (∀ (db : DBState) (docOpt : Option RegistryDoc) (now : Nat) (d1 d2 : String),
        (create_snapshot (create_snapshot db docOpt now d1).1 docOpt now d2).2.2 =
          (create_snapshot db docOpt now d1).2.2) ∧
    (∀ (kvs1 kvs2 : List (String × JsonVal)), kvs1.Perm kvs2 →
        (kvs1.map Prod.fst).Nodup →
        snapshotChecksum (.obj kvs1) = snapshotChecksum (.obj kvs2)) := by
  constructor
  · intro db docOpt now d1 d2
    rfl
  · intro kvs1 kvs2 hperm hnd
    unfold snapshotChecksum
    rw [dumps_obj_perm kvs1 kvs2 hperm hnd]

/-- Witness for C4's theorem: the two construction orders of the same
two-binding object digest identically. -/
theorem snapshot_checksum_det_witness :
    snapshotChecksum (.obj kvsA) = snapshotChecksum (.obj kvsB) :=
  snapshot_checksum_det.2 kvsA kvsB
    (List.Perm.swap ("a", JsonVal.str "x") ("b", JsonVal.num 1) []) (by decide)

/-- Counterexample to C4 as stated: two snapshots of the untouched empty
store taken at clock readings 0 and 1 serialize to different
`snapshot_data` payloads (the embedded timestamp differs) and their
checksums differ, so `createSnapshot` twice in immediate succession does
not in general produce identical checksums. -/
theorem snapshot_checksum_cex :
    dumpsVal true (snapshotJson DBState.empty none 0) ≠
      dumpsVal true (snapshotJson (create_snapshot DBState.empty none 0 "").1 none 1) ∧
    (create_snapshot DBState.empty none 0 "").2.2 ≠
      (create_snapshot (create_snapshot DBState.empty none 0 "").1 none 1 "").2.2 := by
  exact ⟨by decide, by decide⟩

/-! ## Aggregation lemmas -/

theorem maxTs_eq_none {l : List TestResultRow} : maxTs l = none ↔ l = [] := by
  cases l with
  | nil => simp [maxTs]
  | cons r rs =>
      simp only [maxTs]
      cases maxTs rs <;> simp

theorem maxTs_mem : ∀ (l : List TestResultRow) (m : Nat), maxTs l = some m →
    ∃ r ∈ l, r.tested_at = m := by
  intro l
  induction l with
  | nil => intro m h; simp [maxTs] at h
  | cons r rs ih =>
      intro m h
      cases hrec : maxTs rs with
      | none =>
          simp only [maxTs, hrec, Option.some.injEq] at h
          exact ⟨r, List.mem_cons_self _ _, h⟩
      | some m2 =>
          simp only [maxTs, hrec, Option.some.injEq] at h
          rcases Nat.le_total r.tested_at m2 with h2 | h2
          · obtain ⟨r2, hr2, hts⟩ := ih m2 hrec
            refine ⟨r2, List.mem_cons_of_mem _ hr2, ?_⟩
            rw [hts, ← h, Nat.max_eq_right h2]
          · refine ⟨r, List.mem_cons_self _ _, ?_⟩
            rw [← h, Nat.max_eq_left h2]

theorem maxTs_ge : ∀ (l : List TestResultRow) (m : Nat), maxTs l = some m →
    ∀ r ∈ l, r.tested_at ≤ m := by
  intro l
  induction l with
  | nil => intro m _ r hr; simp at hr
  | cons r rs ih =>
      intro m h r2 hr2
      cases hrec : maxTs rs with
      | none =>
          have : rs = [] := maxTs_eq_none.mp hrec
          subst this
          simp only [maxTs, hrec, Option.some.injEq] at h
          simp at hr2
          rw [hr2, h]
      | some m2 =>
          simp only [maxTs, hrec, Option.some.injEq] at h
          rcases List.mem_cons.mp hr2 with h2 | h2
          · rw [h2, ← h]
            exact Nat.le_max_left _ _
          · calc r2.tested_at ≤ m2 := ih m2 hrec r2 h2
              _ ≤ m := by rw [← h]; exact Nat.le_max_right _ _

theorem maxTs_of_mem_ge (l : List TestResultRow) (r : TestResultRow)
    (hr : r ∈ l) (hge : ∀ r2 ∈ l, r2.tested_at ≤ r.tested_at) :
    maxTs l = some r.tested_at := by
  cases hm : maxTs l with
  | none =>
      rw [maxTs_eq_none.mp hm] at hr
      exact absurd hr (List.not_mem_nil _)
  | some m =>
      obtain ⟨r2, hr2, hts⟩ := maxTs_mem l m hm
      have h1 : m ≤ r.tested_at := hts ▸ hge r2 hr2
      have h2 : r.tested_at ≤ m := maxTs_ge l m hm r hr
      rw [Nat.le_antisymm h2 h1]

theorem latestRows_mem_results {db : DBState} {r : TestResultRow}
    (h : r ∈ latestRows db) : r ∈ db.results :=
  (List.mem_filter.mp h).1

theorem mem_latestRows_of_max {db : DBState} {r : TestResultRow}
    (hr : r ∈ db.results)
    (hmax : ∀ r2 ∈ db.results, r2.command = r.command →
      r2.subcommand = r.subcommand → r2.tested_at ≤ r.tested_at) :
    r ∈ latestRows db := by
  rw [latestRows, List.mem_filter]
  refine ⟨hr, ?_⟩
  rw [isGroupMax, List.any_eq_true]
  refine ⟨r, hr, ?_⟩
  have hmem : r ∈ filterPair db.results r.command r.subcommand :=
    mem_filterPair.mpr ⟨hr, rfl, rfl⟩
  have hge : ∀ r2 ∈ filterPair db.results r.command r.subcommand,
      r2.tested_at ≤ r.tested_at := by
    intro r2 h2
    obtain ⟨h2a, h2b, h2c⟩ := mem_filterPair.mp h2
    exact hmax r2 h2a h2b h2c
  rw [maxTs_of_mem_ge _ r hmem hge]
  simp

theorem mem_latestRows_max {db : DBState}
    (hts : (db.results.map (fun r => r.tested_at)).Nodup) {r : TestResultRow}
    (h : r ∈ latestRows db) :
    ∀ r2 ∈ db.results, r2.command = r.command → r2.subcommand = r.subcommand →
      r2.tested_at ≤ r.tested_at := by
  have hinj := List.inj_on_of_nodup_map hts
  obtain ⟨hr, hgm⟩ := List.mem_filter.mp h
  rw [isGroupMax, List.any_eq_true] at hgm
  obtain ⟨r0, hr0, hbeq⟩ := hgm
  rw [beq_iff_eq] at hbeq
  obtain ⟨r1, hr1g, hr1ts⟩ := maxTs_mem _ _ hbeq
  obtain ⟨hr1, hr1c, hr1s⟩ := mem_filterPair.mp hr1g
  have hr1r : r1 = r := hinj hr1 hr hr1ts
  intro r2 h2 h2c h2s
  have h2g : r2 ∈ filterPair db.results r0.command r0.subcommand :=
    mem_filterPair.mpr ⟨h2, by rw [h2c, ← hr1r, hr1c], by rw [h2s, ← hr1r, hr1s]⟩
  have := maxTs_ge _ _ hbeq r2 h2g
  omega

theorem recPair_rowRecord (db : DBState) (row : TestResultRow) :
    recPair (rowRecord db row) = rowPair row := rfl

theorem mem_sqlLatest_iff {db : DBState} {r : ResultRecord} :
    r ∈ sqlLatest db ↔ ∃ row ∈ latestRows db, rowRecord db row = r := by
  unfold sqlLatest
  rw [(List.perm_insertionSort recOrd _).mem_iff]
  exact List.mem_map

theorem sqlLatest_pair_iff (db : DBState) (p : String × Option String) :
    (∃ rec ∈ sqlLatest db, recPair rec = p) ↔
      ∃ row ∈ db.results, rowPair row = p := by
  constructor
  · rintro ⟨rec, hrec, hp⟩
    obtain ⟨row, hrow, heq⟩ := mem_sqlLatest_iff.mp hrec
    exact ⟨row, latestRows_mem_results hrow, by
      rw [← hp, ← heq, recPair_rowRecord]⟩
  · rintro ⟨row, hrow, hp⟩
    have hmem : row ∈ filterPair db.results row.command row.subcommand :=
      mem_filterPair.mpr ⟨hrow, rfl, rfl⟩
    obtain ⟨m, hm⟩ : ∃ m, maxTs (filterPair db.results row.command row.subcommand) = some m := by
      cases hmx : maxTs (filterPair db.results row.command row.subcommand) with
      | none =>
          rw [maxTs_eq_none.mp hmx] at hmem
          exact absurd hmem (List.not_mem_nil _)
      | some m => exact ⟨m, rfl⟩
    obtain ⟨r1, hr1g, hr1ts⟩ := maxTs_mem _ _ hm
    obtain ⟨hr1, hr1c, hr1s⟩ := mem_filterPair.mp hr1g
    have hr1latest : r1 ∈ latestRows db := by
      refine mem_latestRows_of_max hr1 ?_
      intro r2 h2 h2c h2s
      have h2g : r2 ∈ filterPair db.results row.command row.subcommand :=
        mem_filterPair.mpr ⟨h2, by rw [h2c, hr1c], by rw [h2s, hr1s]⟩
      have := maxTs_ge _ _ hm r2 h2g
      omega
    refine ⟨rowRecord db r1, mem_sqlLatest_iff.mpr ⟨r1, hr1latest, rfl⟩, ?_⟩
    rw [recPair_rowRecord, ← hp]
    unfold rowPair
    rw [hr1c, hr1s]

theorem pairs_contains_iff (existing : List ResultRecord) (p : String × Option String) :
    (existing.map recPair).contains p = true ↔ ∃ rec ∈ existing, recPair rec = p := by
  rw [List.elem_iff]
  simp [List.mem_map]

theorem integrate_some (doc : RegistryDoc) (existing : List ResultRecord) :
    integrateDiscovered (some doc) existing =
      existing ++ doc.flatMap (synthBlock existing) := rfl

theorem no_sub_pair_contains (db : DBState) (c sn : String)
    (hno : ¬ ∃ row ∈ db.results, row.command = c ∧ row.subcommand = sn) :
    ((sqlLatest db).map recPair).contains (c, some sn) = false := by
  cases hcont : ((sqlLatest db).map recPair).contains (c, some sn) with
  | false => rfl
  | true =>
      exfalso
      obtain ⟨row, hrow, hp⟩ :=
        (sqlLatest_pair_iff db (c, some sn)).mp
          ((pairs_contains_iff _ _).mp hcont)
      rw [rowPair, Prod.mk.injEq] at hp
      obtain ⟨hpc, hps⟩ := hp
      by_cases hsub : row.subcommand = ""
      · rw [if_pos hsub] at hps
        exact Option.noConfusion hps
      · rw [if_neg hsub] at hps
        exact hno ⟨row, hrow, hpc, Option.some.inj hps⟩

theorem no_base_pair_contains (db : DBState) (c : String)
    (hno : ¬ ∃ row ∈ db.results, row.command = c ∧ row.subcommand = "") :
    ((sqlLatest db).map recPair).contains (c, (none : Option String)) = false := by
  cases hcont : ((sqlLatest db).map recPair).contains (c, (none : Option String)) with
  | false => rfl
  | true =>
      exfalso
      obtain ⟨row, hrow, hp⟩ :=
        (sqlLatest_pair_iff db (c, none)).mp
          ((pairs_contains_iff _ _).mp hcont)
      rw [rowPair, Prod.mk.injEq] at hp
      obtain ⟨hpc, hps⟩ := hp
      by_cases hsub : row.subcommand = ""
      · exact hno ⟨row, hrow, hpc, hsub⟩
      · rw [if_neg hsub] at hps
        exact Option.noConfusion hps

/-- C3 (amended): every (command, subcommand) pair declared in the registry
document with no TestResult row for it is synthesized by
`get_all_test_results` as an untested record with the `'Never'` sentinel
(rendered by `testedAtText`) carrying the document's description and
aliases; a declared BASE command with no TestResult row is synthesized only
when its description is non-empty.  Synthesized records exist only in the
query output: the row type cannot even represent the sentinel, and the
query does not write. -/
theorem untested_synthesized (db : DBState) (doc : RegistryDoc) :
    (∀ c info q, (c, info) ∈ doc → q ∈ info.subcommands →
      (¬ ∃ row ∈ db.results, row.command = c ∧ row.subcommand = q.1) →
      synthSub c q.1 q.2 ∈ get_all_test_results db (some doc)) ∧
    (∀ c info, (c, info) ∈ doc → info.description ≠ "" →
      (¬ ∃ row ∈ db.results, row.command = c ∧ row.subcommand = "") →
      synthBase c info ∈ get_all_test_results db (some doc)) ∧
    (∀ c sn sd, (synthSub c sn sd).status = "untested" ∧
      (synthSub c sn sd).tested_at = none ∧
      testedAtText (synthSub c sn sd).tested_at = "Never" ∧
      (synthSub c sn sd).description = some sd.description ∧
      (synthSub c sn sd).aliases = some sd.aliases) ∧
    (∀ c info, (synthBase c info).status = "untested" ∧
      (synthBase c info).tested_at = none ∧
      testedAtText (synthBase c info).tested_at = "Never" ∧
      (synthBase c info).description = some info.description ∧
      (synthBase c info).aliases = some info.aliases) := by
  refine ⟨?_, ?_, fun c sn sd => ⟨rfl, rfl, rfl, rfl, rfl⟩,
    fun c info => ⟨rfl, rfl, rfl, rfl, rfl⟩⟩
  · intro c info q hcin hqin hno
    rw [get_all_test_results, integrate_some]
    refine List.mem_append.mpr (Or.inr ?_)
    rw [List.mem_flatMap]
    refine ⟨(c, info), hcin, ?_⟩
    refine List.mem_append.mpr (Or.inr ?_)
    rw [List.mem_filterMap]
    refine ⟨q, hqin, ?_⟩
    rw [no_sub_pair_contains db c q.1 hno]
    rfl
  · intro c info hcin hdesc hno
    rw [get_all_test_results, integrate_some]
    refine List.mem_append.mpr (Or.inr ?_)
    rw [List.mem_flatMap]
    refine ⟨(c, info), hcin, ?_⟩
    refine List.mem_append.mpr (Or.inl ?_)
    rw [no_base_pair_contains db c hno]
    simp [bne_iff_ne, hdesc]

/-- Witness for C3's theorem: with no tests recorded and `docC3` declaring
`mod` (non-empty description) with subcommand `ban`, both the subcommand
and the base record are synthesized. -/
theorem untested_synthesized_witness :
    synthSub "mod" "ban" subC3 ∈ get_all_test_results DBState.empty (some docC3) ∧
    synthBase "mod" infoC3 ∈ get_all_test_results DBState.empty (some docC3) :=
  ⟨(untested_synthesized DBState.empty docC3).1 "mod" infoC3 ("ban", subC3)
      (by decide) (by decide) (by decide),
   (untested_synthesized DBState.empty docC3).2.1 "mod" infoC3
      (by decide) (by decide) (by decide)⟩

/-- Counterexample to C3 as stated: `doc3` declares the base command `mod`
(with an empty description) and no test was ever recorded, yet
`get_all_test_results` synthesizes no record for the pair (`mod`, base) —
the code guards base synthesis behind a truthy description. -/
theorem untested_synthesized_cex :
    (doc3.map Prod.fst) = ["mod"] ∧
    DBState.empty.results = [] ∧
    ((get_all_test_results DBState.empty (some doc3)).countP
        (fun r => r.command == "mod" && r.subcommand == (none : Option String))) = 0 := by
  exact ⟨by decide, rfl, by decide⟩

/-- C8 (amended): a null or empty subcommand is normalized to the
empty-string sentinel by `record_test`, and `get_test_status` applies the
same normalization to its lookups; in the reconciliation step of
`get_all_test_results`, recorded base results are matched consistently with
document base commands (both normalize to the Python-`None` sentinel), so a
base-tested command is never re-synthesized — but registry-declared
subcommand NAMES are compared verbatim, so an empty-string subcommand key
in the document is not identified with the base sentinel (see the
counterexample). -/
theorem subcommand_normalization :
    (∀ (sid c st : String) (notes : Option String) (eo : String) (ms : Int)
        (md : Option (List (String × JsonVal))) (now : Nat) (db : DBState),
        record_test sid c none st notes eo ms md now db =
          record_test sid c (some "") st notes eo ms md now db) ∧
    (normSub none = "" ∧ normSub (some "") = "") ∧
    (∀ (db : DBState) (c : String),
        get_test_status db c none = get_test_status db c (some "")) ∧
    (∀ (db : DBState) (docOpt : Option RegistryDoc) (c : String),
        (∃ row ∈ db.results, row.command = c ∧ row.subcommand = "") →
        ∀ r ∈ get_all_test_results db docOpt, r.command = c →
          r.subcommand ≠ none) := by
  refine ⟨fun _ _ _ _ _ _ _ _ _ => rfl, ⟨rfl, rfl⟩, fun _ _ => rfl, ?_⟩
  intro db docOpt c hbase r hr hrc
  obtain ⟨row, hrow, hrowc, hrows⟩ := hbase
  have hcontains : ((sqlLatest db).map recPair).contains
      ((c, none) : String × Option String) = true :=
    (pairs_contains_iff _ _).mpr ((sqlLatest_pair_iff db (c, none)).mpr
      ⟨row, hrow, by rw [rowPair, hrowc, hrows]; simp⟩)
  cases docOpt with
  | none =>
      obtain ⟨row2, _, heq⟩ := mem_sqlLatest_iff.mp hr
      rw [← heq]
      simp [rowRecord]
  | some doc =>
      rw [get_all_test_results, integrate_some] at hr
      rcases List.mem_append.mp hr with h | h
      · obtain ⟨row2, _, heq⟩ := mem_sqlLatest_iff.mp h
        rw [← heq]
        simp [rowRecord]
      · rw [List.mem_flatMap] at h
        obtain ⟨p, hp, hblock⟩ := h
        rcases List.mem_append.mp hblock with hb | hs
        · by_cases hguard : (!((sqlLatest db).map recPair).contains
              (p.1, (none : Option String)) && p.2.description != "") = true
          · rw [if_pos hguard] at hb
            rw [List.mem_singleton] at hb
            subst hb
            have hp1 : p.1 = c := hrc
            rw [Bool.and_eq_true, Bool.not_eq_true'] at hguard
            rw [hp1, hcontains] at hguard
            exact absurd hguard.1 (by simp)
          · rw [if_neg hguard] at hb
            exact absurd hb (List.not_mem_nil _)
        · rw [List.mem_filterMap] at hs
          obtain ⟨q, _, hfq⟩ := hs
          by_cases hguard : (!((sqlLatest db).map recPair).contains (p.1, some q.1)) = true
          · rw [if_pos hguard] at hfq
            rw [← Option.some.inj hfq]
            simp [synthSub]
          · rw [if_neg hguard] at hfq
            exact absurd hfq (by simp)

/-- Witness for C8's theorem: with a recorded base result for `ping`, the
query output record for `ping` is the database row's record (subcommand
`some ""`), not a base-synthesized one. -/
theorem subcommand_normalization_witness :
    (rowRecord db8 (rowC "ping" "" 5 "passed")).subcommand ≠ none :=
  subcommand_normalization.2.2.2 db8 (some docC3) "ping" (by decide)
    (rowRecord db8 (rowC "ping" "" 5 "passed")) (by decide) (by decide)

/-- Counterexample to C8 as stated: the store has one base-command result
for `ping` (subcommand normalized to `""`), the document declares an
empty-string subcommand name for `ping`, and the reconciliation compares
that declared name verbatim instead of normalizing it: the output carries
TWO records whose normalized pair is (`ping`, base) — a passed one and a
freshly synthesized untested one — so the normalization is not applied
consistently everywhere subcommands are compared. -/
theorem subcommand_normalization_cex :
    db8.results.map (fun r => (r.command, r.subcommand)) = [("ping", "")] ∧
    (doc8.flatMap fun p => p.2.subcommands.map Prod.fst) = [""] ∧
    ((get_all_test_results db8 (some doc8)).countP
        (fun r => recPair r == (("ping", none) : String × Option String))) = 2 := by
  exact ⟨by decide, by decide, by decide⟩

/-! ## Deduplication lemmas for the merged view -/

theorem countP_le_one_of_pairwise {α : Type _} (q : α → Bool) :
    ∀ (l : List α), l.Pairwise (fun a b => ¬(q a = true ∧ q b = true)) →
      l.countP q ≤ 1 := by
  intro l
  induction l with
  | nil => intro _; simp
  | cons a t ih =>
      intro hpw
      obtain ⟨hhead, htail⟩ := List.pairwise_cons.mp hpw
      rw [List.countP_cons]
      by_cases hqa : q a = true
      · have hz : t.countP q = 0 := by
          rw [List.countP_eq_zero]
          intro x hx hqx
          exact hhead x hx ⟨hqa, hqx⟩
        simp [hqa, hz]
      · have ht := ih htail
        simp only [hqa, if_false]
        simpa using ht

theorem rowPair_inj {a b : TestResultRow} (h : rowPair a = rowPair b) :
    a.command = b.command ∧ a.subcommand = b.subcommand := by
  rw [rowPair, rowPair, Prod.mk.injEq] at h
  refine ⟨h.1, ?_⟩
  have h2 := h.2
  by_cases ha : a.subcommand = ""
  · by_cases hb : b.subcommand = ""
    · rw [ha, hb]
    · rw [if_pos ha, if_neg hb] at h2
      exact absurd h2.symm (by simp)
  · by_cases hb : b.subcommand = ""
    · rw [if_neg ha, if_pos hb] at h2
      exact absurd h2 (by simp)
    · rw [if_neg ha, if_neg hb] at h2
      exact Option.some.inj h2

theorem latestRows_pairwise_pairs {db : DBState}
    (hts : (db.results.map (fun r => r.tested_at)).Nodup) :
    (latestRows db).Pairwise (fun a b => rowPair a ≠ rowPair b) := by
  have hpw_ts : db.results.Pairwise (fun a b => a.tested_at ≠ b.tested_at) :=
    List.pairwise_map.mp hts
  have hpw2 : (latestRows db).Pairwise (fun a b => a.tested_at ≠ b.tested_at) :=
    List.Pairwise.sublist (List.filter_sublist _) hpw_ts
  refine List.Pairwise.imp_of_mem ?_ hpw2
  intro a b ha hb hne hpq
  obtain ⟨hcmd, hsub⟩ := rowPair_inj hpq
  have h1 := mem_latestRows_max hts hb a (latestRows_mem_results ha) hcmd hsub
  have h2 := mem_latestRows_max hts ha b (latestRows_mem_results hb) hcmd.symm hsub.symm
  exact hne (Nat.le_antisymm h1 h2)

theorem sqlLatest_countP_le_one (db : DBState)
    (hts : (db.results.map (fun r => r.tested_at)).Nodup)
    (p : String × Option String) :
    (sqlLatest db).countP (fun r => recPair r == p) ≤ 1 := by
  unfold sqlLatest
  rw [(List.perm_insertionSort recOrd _).countP_eq]
  rw [List.countP_map]
  apply countP_le_one_of_pairwise
  refine (latestRows_pairwise_pairs hts).imp ?_
  intro a b hne hq
  obtain ⟨hqa, hqb⟩ := hq
  simp only [Function.comp, beq_iff_eq, recPair_rowRecord] at hqa hqb
  exact hne (hqa.trans hqb.symm)

theorem mem_synthBlock_iff {existing : List ResultRecord} {p : String × CmdInfo}
    {r : ResultRecord} :
    r ∈ synthBlock existing p ↔
      (r = synthBase p.1 p.2 ∧
        (existing.map recPair).contains (p.1, (none : Option String)) = false ∧
        p.2.description ≠ "") ∨
      (∃ q ∈ p.2.subcommands, r = synthSub p.1 q.1 q.2 ∧
        (existing.map recPair).contains (p.1, some q.1) = false) := by
  unfold synthBlock
  rw [List.mem_append]
  constructor
  · rintro (hb | hs)
    · left
      by_cases hguard : (!((existing.map recPair).contains
          (p.1, (none : Option String))) && p.2.description != "") = true
      · rw [if_pos hguard] at hb
        rw [List.mem_singleton] at hb
        rw [Bool.and_eq_true, Bool.not_eq_true', bne_iff_ne] at hguard
        exact ⟨hb, hguard.1, hguard.2⟩
      · rw [if_neg hguard] at hb
        exact absurd hb (List.not_mem_nil _)
    · right
      rw [List.mem_filterMap] at hs
      obtain ⟨q, hq, hfq⟩ := hs
      by_cases hguard : (!((existing.map recPair).contains (p.1, some q.1))) = true
      · rw [if_pos hguard] at hfq
        rw [Bool.not_eq_true'] at hguard
        exact ⟨q, hq, (Option.some.inj hfq).symm, hguard⟩
      · rw [if_neg hguard] at hfq
        exact absurd hfq (by simp)
  · rintro (⟨hr, hcont, hdesc⟩ | ⟨q, hq, hr, hcont⟩)
    · left
      have hg : (!((existing.map recPair).contains (p.1, (none : Option String))) &&
          p.2.description != "") = true := by
        rw [Bool.and_eq_true, Bool.not_eq_true', bne_iff_ne]
        exact ⟨hcont, hdesc⟩
      rw [if_pos hg, hr]
      exact List.mem_singleton.mpr rfl
    · right
      rw [List.mem_filterMap]
      refine ⟨q, hq, ?_⟩
      have hg : (!((existing.map recPair).contains (p.1, some q.1))) = true := by
        rw [Bool.not_eq_true']
        exact hcont
      rw [if_pos hg, hr]

theorem mem_synthBlock_command {existing : List ResultRecord}
    {p : String × CmdInfo} {r : ResultRecord} (h : r ∈ synthBlock existing p) :
    r.command = p.1 := by
  rcases mem_synthBlock_iff.mp h with ⟨hr, _, _⟩ | ⟨q, _, hr, _⟩ <;> rw [hr] <;> rfl

theorem synthBlock_pairwise {existing : List ResultRecord} {p : String × CmdInfo}
    (hnd : (p.2.subcommands.map Prod.fst).Nodup)
    (hne : ∀ q ∈ p.2.subcommands, q.1 ≠ "") :
    (synthBlock existing p).Pairwise (fun a b => recPair a ≠ recPair b) := by
  unfold synthBlock
  rw [List.pairwise_append]
  refine ⟨?_, ?_, ?_⟩
  · split <;> simp
  · rw [List.pairwise_filterMap]
    refine List.Pairwise.imp_of_mem ?_ (List.pairwise_map.mp hnd)
    intro q1 q2 hq1 hq2 hne12 b1 hb1 b2 hb2
    have hb1e : b1 = synthSub p.1 q1.1 q1.2 := by
      by_cases hg : (!((existing.map recPair).contains (p.1, some q1.1))) = true
      · rw [if_pos hg] at hb1
        exact (Option.mem_some_iff.mp hb1).symm
      · rw [if_neg hg] at hb1
        exact absurd hb1 (by simp)
    have hb2e : b2 = synthSub p.1 q2.1 q2.2 := by
      by_cases hg : (!((existing.map recPair).contains (p.1, some q2.1))) = true
      · rw [if_pos hg] at hb2
        exact (Option.mem_some_iff.mp hb2).symm
      · rw [if_neg hg] at hb2
        exact absurd hb2 (by simp)
    rw [hb1e, hb2e]
    intro hEq
    rw [recPair, recPair, Prod.mk.injEq] at hEq
    have h2 := hEq.2
    simp only [synthSub, pairOrNone] at h2
    rw [if_neg (hne q1 hq1), if_neg (hne q2 hq2)] at h2
    exact hne12 (Option.some.inj h2)
  · intro a ha b hb
    have haEq : a = synthBase p.1 p.2 := by
      by_cases hg : (!((existing.map recPair).contains
          (p.1, (none : Option String))) && p.2.description != "") = true
      · rw [if_pos hg] at ha
        exact List.mem_singleton.mp ha
      · rw [if_neg hg] at ha
        exact absurd ha (List.not_mem_nil _)
    rw [List.mem_filterMap] at hb
    obtain ⟨q, hq, hfq⟩ := hb
    have hbEq : b = synthSub p.1 q.1 q.2 := by
      by_cases hg : (!((existing.map recPair).contains (p.1, some q.1))) = true
      · rw [if_pos hg] at hfq
        exact (Option.some.inj hfq).symm
      · rw [if_neg hg] at hfq
        exact absurd hfq (by simp)
    rw [haEq, hbEq]
    intro hEq
    rw [recPair, recPair, Prod.mk.injEq] at hEq
    have h2 := hEq.2
    simp only [synthBase, synthSub, pairOrNone] at h2
    rw [if_neg (hne q hq)] at h2
    exact Option.noConfusion h2

theorem mem_flatMap_command {existing : List ResultRecord} {doc : RegistryDoc}
    {r : ResultRecord} (h : r ∈ doc.flatMap (synthBlock existing)) :
    ∃ p ∈ doc, r.command = p.1 := by
  obtain ⟨p, hp, hblock⟩ := List.mem_flatMap.mp h
  exact ⟨p, hp, mem_synthBlock_command hblock⟩

theorem synth_flatMap_pairwise {existing : List ResultRecord} {doc : RegistryDoc}
    (hwf : DocWF doc) :
    (doc.flatMap (synthBlock existing)).Pairwise
      (fun a b => recPair a ≠ recPair b) := by
  induction doc with
  | nil => simp
  | cons p rest ih =>
      obtain ⟨hndc, hsub⟩ := hwf
      rw [List.map_cons, List.nodup_cons] at hndc
      have hwfrest : DocWF rest :=
        ⟨hndc.2, fun q hq => hsub q (List.mem_cons_of_mem _ hq)⟩
      obtain ⟨hpnd, hpne⟩ := hsub p (List.mem_cons_self _ _)
      rw [List.flatMap_cons, List.pairwise_append]
      refine ⟨synthBlock_pairwise hpnd hpne, ih hwfrest, ?_⟩
      intro a ha b hb
      obtain ⟨p2, hp2, hb2⟩ := mem_flatMap_command hb
      have ha2 := mem_synthBlock_command ha
      intro hEq
      rw [recPair, recPair, Prod.mk.injEq] at hEq
      rw [ha2, hb2] at hEq
      exact hndc.1 (hEq.1 ▸ List.mem_map_of_mem Prod.fst hp2)

theorem synth_pair_excluded (existing : List ResultRecord) (doc : RegistryDoc)
    (hwf : DocWF doc) (pr : String × Option String)
    (hex : ∃ rec ∈ existing, recPair rec = pr) :
    ∀ r ∈ doc.flatMap (synthBlock existing), recPair r ≠ pr := by
  intro r hr hEq
  obtain ⟨p, hp, hblock⟩ := List.mem_flatMap.mp hr
  rcases mem_synthBlock_iff.mp hblock with ⟨hrEq, hcont, _⟩ | ⟨q, hq, hrEq, hcont⟩
  · have hpr : pr = (p.1, none) := by
      rw [← hEq, hrEq]
      rfl
    rw [hpr] at hex
    rw [(pairs_contains_iff existing (p.1, none)).mpr hex] at hcont
    exact Bool.noConfusion hcont
  · have hq1 : q.1 ≠ "" := (hwf.2 p hp).2 q hq
    have hpr : pr = (p.1, some q.1) := by
      rw [← hEq, hrEq]
      rw [recPair]
      simp only [synthSub, pairOrNone]
      rw [if_neg hq1]
    rw [hpr] at hex
    rw [(pairs_contains_iff existing (p.1, some q.1)).mpr hex] at hcont
    exact Bool.noConfusion hcont

theorem contains_pair_false (db : DBState) (pr : String × Option String)
    (hno : ¬ ∃ row ∈ db.results, rowPair row = pr) :
    ((sqlLatest db).map recPair).contains pr = false := by
  cases h : ((sqlLatest db).map recPair).contains pr with
  | false => rfl
  | true =>
      exact absurd ((sqlLatest_pair_iff db pr).mp ((pairs_contains_iff _ _).mp h)) hno

/-- C1 (amended): assuming all stored `tested_at` timestamps are pairwise
distinct (the claim's filter `WHERE tested_at IN (SELECT MAX(...) GROUP
BY ...)` keeps any row whose timestamp coincides with ANY group's maximum,
so duplicates appear otherwise) and the registry document is a well-formed
JSON object (unique keys, no empty subcommand name), `get_all_test_results`
returns at most one record per normalized (command, subcommand) pair, and
the set of pairs equals the union of the pairs in TestResult history, the
document's declared subcommand pairs, and the document's base commands
WITH NON-EMPTY DESCRIPTION. -/
theorem get_all_results_pairs (db : DBState) (docOpt : Option RegistryDoc)
    (hts : (db.results.map (fun r => r.tested_at)).Nodup)
    (hwf : DocWFopt docOpt) :
    (∀ p : String × Option String,
        (get_all_test_results db docOpt).countP (fun r => recPair r == p) ≤ 1) ∧
    (∀ p : String × Option String,
        (∃ r ∈ get_all_test_results db docOpt, recPair r = p) ↔
          (∃ row ∈ db.results, rowPair row = p) ∨ docDeclaredPair docOpt p) := by
  cases docOpt with
  | none =>
      constructor
      · intro p
        exact sqlLatest_countP_le_one db hts p
      · intro p
        have hrfl : get_all_test_results db none = sqlLatest db := rfl
        rw [hrfl, sqlLatest_pair_iff]
        simp [docDeclaredPair]
  | some doc =>
      have hwf2 : DocWF doc := hwf
      constructor
      · intro p
        rw [get_all_test_results, integrate_some, List.countP_append]
        by_cases hex : ∃ rec ∈ sqlLatest db, recPair rec = p
        · have h2 : (doc.flatMap (synthBlock (sqlLatest db))).countP
              (fun r => recPair r == p) = 0 := by
            rw [List.countP_eq_zero]
            intro r hr hbeq
            exact synth_pair_excluded _ _ hwf2 p hex r hr (beq_iff_eq.mp hbeq)
          have h1 := sqlLatest_countP_le_one db hts p
          omega
        · have h1 : (sqlLatest db).countP (fun r => recPair r == p) = 0 := by
            rw [List.countP_eq_zero]
            intro r hr hbeq
            exact hex ⟨r, hr, beq_iff_eq.mp hbeq⟩
          have h2 : (doc.flatMap (synthBlock (sqlLatest db))).countP
              (fun r => recPair r == p) ≤ 1 := by
            apply countP_le_one_of_pairwise
            refine (synth_flatMap_pairwise hwf2).imp ?_
            intro a b hne hq
            exact hne ((beq_iff_eq.mp hq.1).trans (beq_iff_eq.mp hq.2).symm)
          omega
      · intro p
        rw [get_all_test_results, integrate_some]
        constructor
        · rintro ⟨r, hr, hp⟩
          rcases List.mem_append.mp hr with h | h
          · exact Or.inl ((sqlLatest_pair_iff db p).mp ⟨r, h, hp⟩)
          · obtain ⟨pd, hpd, hblock⟩ := List.mem_flatMap.mp h
            rcases mem_synthBlock_iff.mp hblock with ⟨hrEq, _, hdesc⟩ | ⟨q, hq, hrEq, _⟩
            · refine Or.inr ⟨doc, rfl, Or.inl ⟨pd.2, ?_, hdesc, ?_⟩⟩
              · have hp1 : p.1 = pd.1 := by
                  rw [← hp, hrEq]
                  rfl
                rw [hp1]
                simpa using hpd
              · rw [← hp, hrEq]
                rfl
            · have hq1 : q.1 ≠ "" := (hwf2.2 pd hpd).2 q hq
              refine Or.inr ⟨doc, rfl, Or.inr ⟨pd.1, pd.2, q, by simpa using hpd, hq, ?_⟩⟩
              rw [← hp, hrEq, recPair]
              simp only [synthSub, pairOrNone]
              rw [if_neg hq1]
        · rintro (⟨row, hrow, hp⟩ | hdecl)
          · obtain ⟨rec, hrec, hrp⟩ := (sqlLatest_pair_iff db p).mpr ⟨row, hrow, hp⟩
            exact ⟨rec, List.mem_append.mpr (Or.inl hrec), hrp⟩
          · obtain ⟨doc2, hdoc2, hcase⟩ := hdecl
            have hdd : doc2 = doc := (Option.some.inj hdoc2).symm
            subst hdd
            by_cases hex : ∃ row ∈ db.results, rowPair row = p
            · obtain ⟨row, hrow, hp⟩ := hex
              obtain ⟨rec, hrec, hrp⟩ := (sqlLatest_pair_iff db p).mpr ⟨row, hrow, hp⟩
              exact ⟨rec, List.mem_append.mpr (Or.inl hrec), hrp⟩
            · have hcf := contains_pair_false db p hex
              rcases hcase with ⟨info, hinfo, hdesc, hp2⟩ | ⟨c, info, q, hcin, hq, hpq⟩
              · refine ⟨synthBase p.1 info, ?_, ?_⟩
                · refine List.mem_append.mpr (Or.inr ?_)
                  rw [List.mem_flatMap]
                  refine ⟨(p.1, info), hinfo, ?_⟩
                  refine mem_synthBlock_iff.mpr (Or.inl ⟨rfl, ?_, hdesc⟩)
                  have hpeta : ((p.1, (none : Option String)) :
                      String × Option String) = p := by
                    rw [← hp2]
                  rw [hpeta]
                  exact hcf
                · rw [recPair]
                  simp only [synthBase, pairOrNone]
                  rw [← hp2]
              · subst hpq
                refine ⟨synthSub c q.1 q.2, ?_, ?_⟩
                · refine List.mem_append.mpr (Or.inr ?_)
                  rw [List.mem_flatMap]
                  refine ⟨(c, info), hcin, ?_⟩
                  exact mem_synthBlock_iff.mpr (Or.inr ⟨q, hq, rfl, hcf⟩)
                · have hq1 : q.1 ≠ "" := (hwf2.2 (c, info) hcin).2 q hq
                  rw [recPair]
                  simp only [synthSub, pairOrNone]
                  rw [if_neg hq1]

/-- Witness for C1's theorem at the store with one tested base command and
the `docC3` registry document, querying the tested pair. -/
theorem get_all_results_pairs_witness :
    ((get_all_test_results dbOne (some docC3)).countP
        (fun r => recPair r == (("a", none) : String × Option String))) ≤ 1 ∧
    ((∃ r ∈ get_all_test_results dbOne (some docC3), recPair r = ("a", none)) ↔
      (∃ row ∈ dbOne.results, rowPair row = ("a", none)) ∨
        docDeclaredPair (some docC3) ("a", none)) :=
  ⟨(get_all_results_pairs dbOne (some docC3) (by decide) (by decide)).1 ("a", none),
   (get_all_results_pairs dbOne (some docC3) (by decide) (by decide)).2 ("a", none)⟩

/-- Counterexample to C1 as stated: two rows of the same pair share the
maximal timestamp, and `get_all_test_results` returns BOTH (the `IN
(SELECT MAX...)` filter admits every row carrying a group-maximal
timestamp), so the output has two records for one (command, subcommand)
pair. -/
theorem get_all_results_pairs_cex :
    dbTie.results.map (fun r => (r.command, r.subcommand, r.tested_at)) =
      [("a", "", 5), ("a", "", 5)] ∧
    ((get_all_test_results dbTie none).countP
        (fun r => recPair r == (("a", none) : String × Option String))) = 2 := by
  exact ⟨by decide, by decide⟩
